import Mathlib

/-!
Shallow embedding of the `ehour` Python package (geanix/ehour), covering the
identity cache and lazy model layer (`ehour/model.py`), the REST error path of
the API client (`ehour/api.py`, `ehour/exceptions.py`), and the older `fill`
revision of the client model (`ehour/client.py`).

Modelling conventions:
* Python object identity is modelled with an explicit heap: every entity
  instance is an address (`Nat`) into a `store`; the per-class identity caches
  (`Model._cache` of `Client`, `Project` and `User`) map entity IDs to
  addresses.  Reference equality of Python objects is equality of addresses.
* An instance's `__dict__` is an association list `List (String × Value)` in
  insertion order (Python dicts preserve insertion order; updating an existing
  key keeps its position).  The `id` attribute is an ordinary entry of that
  list, exactly as in Python.
* Python exceptions are modelled with `Except Err`: an `Except.error` result
  is an uncaught exception aborting the operation.
* Reading a missing attribute yields `Option.none` (Python raises
  `AttributeError`: the `attr.s` decorator deletes the class-level attribute
  defaults, so only the instance `__dict__` is consulted).
* JSON response values are modelled by `RespValue`: either a scalar leaf or a
  one-level object of leaves, which is exactly the shape `Model.update`
  inspects.  Entity IDs occurring in responses are modelled as strings (the
  eHour API uses string IDs such as "CLT45"); a non-string where an ID is
  required is mapped to a `typeError`.
* `str.splitlines` is modelled for the newline character only ('\n'), which
  is the only separator the code's `'\n' in value` guard looks for.
-/

/-- Scalar JSON leaf values (Python `None`, `str`, `bool`, `int`). -/
inductive Leaf where
  | nil
  | str (s : String)
  | bool (b : Bool)
  | int (n : Int)
deriving DecidableEq

/-- A value in a server response: a scalar, or a one-level JSON object. -/
inductive RespValue where
  | leaf (l : Leaf)
  | vdict (d : List (String × Leaf))
deriving DecidableEq

/-- A value stored in an instance `__dict__`: a scalar, a list of lines
(result of `str.splitlines`), a reference to another entity instance, or a
raw one-level JSON object (stored when `Model.update` does not resolve it). -/
inductive Value where
  | leaf (l : Leaf)
  | strList (ls : List String)
  | ref (a : Nat)
  | vdict (d : List (String × Leaf))
deriving DecidableEq

/-- Uncaught Python exceptions relevant to the modelled code. -/
inductive Err where
  | assertionError
  | attributeError
  | keyError
  | typeError
deriving DecidableEq

deriving instance DecidableEq for Except

/-- Find the value of a key in an association list (first occurrence). -/
def assocFind {K V : Type} [DecidableEq K] (l : List (K × V)) (k : K) : Option V :=
  match l with
  | [] => Option.none
  | (k', v) :: rest => if k' = k then some v else assocFind rest k

/-- Set a key in an association list, Python-dict style: an existing key keeps
its position, a new key is appended at the end. -/
def assocSet {K V : Type} [DecidableEq K] (l : List (K × V)) (k : K) (v : V) :
    List (K × V) :=
  match l with
  | [] => [(k, v)]
  | (k', v') :: rest =>
      if k' = k then (k, v) :: rest else (k', v') :: assocSet rest k v

/-- Remove a key from an association list (first occurrence), as Python
`del d[k]` / `d.pop(k)` on a dict. -/
def assocErase {K V : Type} [DecidableEq K] (l : List (K × V)) (k : K) :
    List (K × V) :=
  match l with
  | [] => []
  | (k', v) :: rest => if k' = k then rest else (k', v) :: assocErase rest k

/-- An entity instance: its `__dict__`. -/
structure Obj where
  dict : List (String × Value)
deriving DecidableEq

/-- Process state: the three per-class identity caches (`Client._cache`,
`Project._cache`, `User._cache`), the heap of live instances, and the next
fresh address. -/
structure State where
  clientCache : List (String × Nat)
  projectCache : List (String × Nat)
  userCache : List (String × Nat)
  store : List (Nat × Obj)
  next : Nat
deriving DecidableEq

/-- The state at interpreter start: all caches empty. -/
def initState : State :=
  { clientCache := [], projectCache := [], userCache := [], store := [], next := 0 }

/-- Read an instance `__dict__` from the heap. -/
def State.objDict (s : State) (a : Nat) : Option (List (String × Value)) :=
  (assocFind s.store a).map Obj.dict

/-- Read an attribute of an instance (`none` models `AttributeError`). -/
def State.getattr (s : State) (a : Nat) (k : String) : Option Value :=
  (s.objDict a).bind (fun d => assocFind d k)

/-- Replace the `__dict__` of the instance at address `a` (no-op when the
address is not allocated, which never happens for addresses the modelled
operations hand out). -/
def storeModify (st : List (Nat × Obj)) (a : Nat) (f : Obj → Obj) :
    List (Nat × Obj) :=
  match st with
  | [] => []
  | (b, o) :: rest =>
      (if b = a then (a, f o) else (b, o)) :: storeModify rest a f

/-- `setattr(instance_at_a, k, v)`. -/
def setObjAttr (s : State) (a : Nat) (k : String) (v : Value) : State :=
  { s with store := storeModify s.store a (fun o => ⟨assocSet o.dict k v⟩) }

/-- Apply a kwargs dict as successive `setattr` calls (the loop at the end of
`Model._get`). -/
def setAttrs (s : State) (a : Nat) (kwargs : List (String × Value)) : State :=
  match kwargs with
  | [] => s
  | (k, v) :: rest => setAttrs (setObjAttr s a k v) a rest

/-- Instance `__dict__` of a freshly constructed `Client(id)`: `attr.s`
generates `__init__` setting each declared attribute in declaration order,
with `id` first (from the `Model` base) and all optional fields `None`. -/
def clientDefaultDict (id : String) : List (String × Value) :=
  [("id", .leaf (.str id)), ("code", .leaf .nil), ("name", .leaf .nil),
   ("active", .leaf .nil), ("description", .leaf .nil),
   ("customField1", .leaf .nil), ("customField2", .leaf .nil),
   ("customField3", .leaf .nil)]

/-- Instance `__dict__` of a freshly constructed `Project(id)`. -/
def projectDefaultDict (id : String) : List (String × Value) :=
  [("id", .leaf (.str id)), ("code", .leaf .nil), ("name", .leaf .nil),
   ("active", .leaf .nil), ("billable", .leaf .nil),
   ("budgetInMinutes", .leaf .nil), ("contact", .leaf .nil),
   ("description", .leaf .nil), ("projectManager", .leaf .nil),
   ("client", .leaf .nil)]

/-- Instance `__dict__` of a freshly constructed `User(id)`, before its
`__attrs_post_init__` runs. -/
def userDefaultDict (id : String) : List (String × Value) :=
  [("id", .leaf (.str id)), ("firstName", .leaf .nil), ("lastName", .leaf .nil),
   ("name", .leaf .nil), ("email", .leaf .nil)]

/-- Raw constructor `Client(id)`: `attr.s` `__init__` then
`Model.__attrs_post_init__`, which asserts the ID is not cached yet and
self-inserts into `Client._cache`. -/
def clientNew (s : State) (id : String) : Except Err (Nat × State) :=
  if (assocFind s.clientCache id).isSome then .error .assertionError
  else
    .ok (s.next,
      { s with clientCache := assocSet s.clientCache id s.next,
               store := s.store ++ [(s.next, ⟨clientDefaultDict id⟩)],
               next := s.next + 1 })

/-- Raw constructor `Project(id)` (same `Model.__attrs_post_init__`). -/
def projectNew (s : State) (id : String) : Except Err (Nat × State) :=
  if (assocFind s.projectCache id).isSome then .error .assertionError
  else
    .ok (s.next,
      { s with projectCache := assocSet s.projectCache id s.next,
               store := s.store ++ [(s.next, ⟨projectDefaultDict id⟩)],
               next := s.next + 1 })

/-- Python truthiness of a stored value (`bool(v)`). -/
def Value.isTruthy : Value → Bool
  | .leaf .nil => false
  | .leaf (.str s) => !s.data.isEmpty
  | .leaf (.bool b) => b
  | .leaf (.int n) => n != 0
  | .strList ls => !ls.isEmpty
  | .ref _ => true
  | .vdict d => !d.isEmpty

/-- Python `f'{v}'` rendering of a stored value, used by `User._update_name`
when concatenating first and last name.  Scalars follow Python `str()`;
the non-scalar cases never occur on name fields in practice and are given a
simple rendering. -/
def Value.pyStr : Value → String
  | .leaf .nil => "None"
  | .leaf (.str s) => s
  | .leaf (.bool b) => if b then "True" else "False"
  | .leaf (.int n) => toString n
  | .strList ls => toString ls
  | .ref a => toString a
  | .vdict _ => "dict"

/-- `User._update_name` on an instance `__dict__`:

    if not getattr(self, 'name', None):
        if self.firstName:
            self.name = self.firstName
            if self.lastName:
                self.name += f' {self.lastName}'
        elif self.lastName:
            self.name = self.lastName

Reading `self.firstName` / `self.lastName` raises `AttributeError` when the
attribute is absent (possible after `Model.update` pruned the `__dict__`);
`+=` on a non-string name raises `TypeError`. -/
def userUpdateName (d : List (String × Value)) : Except Err (List (String × Value)) :=
  if ((assocFind d "name").getD (.leaf .nil)).isTruthy then .ok d
  else
    match assocFind d "firstName" with
    | Option.none => .error .attributeError
    | some fn =>
      if fn.isTruthy then
        match assocFind (assocSet d "name" fn) "lastName" with
        | Option.none => .error .attributeError
        | some ln =>
          if ln.isTruthy then
            match fn with
            | .leaf (.str sfn) =>
                .ok (assocSet (assocSet d "name" fn) "name"
                  (.leaf (.str (sfn ++ " " ++ ln.pyStr))))
            | _ => .error .typeError
          else .ok (assocSet d "name" fn)
      else
        match assocFind d "lastName" with
        | Option.none => .error .attributeError
        | some ln => if ln.isTruthy then .ok (assocSet d "name" ln) else .ok d

/-- Raw constructor `User(id)`: `attr.s` `__init__` then the overriding
`User.__attrs_post_init__`, which only calls `_update_name` — it does NOT
call the base post-init, so the instance is neither checked against nor
inserted into `User._cache`. -/
def userNew (s : State) (id : String) : Except Err (Nat × State) :=
  match userUpdateName (userDefaultDict id) with
  | .error e => .error e
  | .ok d =>
      .ok (s.next,
        { s with store := s.store ++ [(s.next, ⟨d⟩)], next := s.next + 1 })

/-- `Client.get(id, **kwargs)` = `Model._get(id, Client, **kwargs)`: return
the cached instance if any, else construct one (which self-inserts), then
apply each kwarg with `setattr`. -/
def clientGet (s : State) (id : String) (kwargs : List (String × Value)) :
    Except Err (Nat × State) :=
  match assocFind s.clientCache id with
  | some a => .ok (a, setAttrs s a kwargs)
  | Option.none =>
      match clientNew s id with
      | .error e => .error e
      | .ok (a, s') => .ok (a, setAttrs s' a kwargs)

/-- `Project.get(id, **kwargs)` = `Model._get(id, Project, **kwargs)`. -/
def projectGet (s : State) (id : String) (kwargs : List (String × Value)) :
    Except Err (Nat × State) :=
  match assocFind s.projectCache id with
  | some a => .ok (a, setAttrs s a kwargs)
  | Option.none =>
      match projectNew s id with
      | .error e => .error e
      | .ok (a, s') => .ok (a, setAttrs s' a kwargs)

/-- `User.get(id, **kwargs)` = `Model._get(id, User, **kwargs)`.  Since
`User.__attrs_post_init__` never inserts into `User._cache`, the cache lookup
always misses unless something external populated the cache. -/
def userGet (s : State) (id : String) (kwargs : List (String × Value)) :
    Except Err (Nat × State) :=
  match assocFind s.userCache id with
  | some a => .ok (a, setAttrs s a kwargs)
  | Option.none =>
      match userNew s id with
      | .error e => .error e
      | .ok (a, s') => .ok (a, setAttrs s' a kwargs)

/-- A parsed INI configuration: sections mapping option names to values.
`configGet c sec opt` models `ConfigParser.get(sec, opt)` with
`NoSectionError` / `NoOptionError` both collapsed to `none` (the code catches
exactly these two). -/
def Config : Type := List (String × List (String × String))

/-- `ConfigParser.get(section, option)`, `none` on missing section/option. -/
def configGet (c : Config) (sec opt : String) : Option String :=
  (assocFind c sec).bind (fun so => assocFind so opt)

/-- `s.startswith(pre)` for Python strings. -/
def pyStartsWith (s pre : String) : Bool := pre.data.isPrefixOf s.data

/-- The field-name rewriting step of `Model.update`:

    if config and key.startswith('customField'):
        try:
            key = config.get('Custom Fields', f'{self.model_name}.{key}')
        except (configparser.NoSectionError, configparser.NoOptionError):
            pass        # Field name not configured

`config` is `getattr(ehour.api.API, 'config', None)`; a missing or `None`
configuration leaves the key unchanged, as does a missing section or option. -/
def transformKey (config : Option Config) (modelName key : String) : String :=
  if pyStartsWith key "customField" then
    match config with
    | Option.none => key
    | some c =>
        match configGet c "Custom Fields" (modelName ++ "." ++ key) with
        | some mapped => mapped
        | Option.none => key
  else key

/-- `'\n' in value` for a Python string. -/
def pyContainsNL (s : String) : Bool := s.data.contains '\n'

/-- Split a character list at newline characters (the separators are
dropped; n newlines produce n+1 groups). -/
def splitAtNL : List Char → List (List Char)
  | [] => [[]]
  | c :: rest =>
      if c = '\n' then [] :: splitAtNL rest
      else
        match splitAtNL rest with
        | [] => [[c]]
        | g :: gs => (c :: g) :: gs

/-- Python `str.splitlines`, for '\n' separators: like splitting on '\n'
except that a trailing newline does not produce a final empty line
(`'a\n'.splitlines() == ['a']`, `''.splitlines() == []`). -/
def pySplitlines (s : String) : List String :=
  let parts := (splitAtNL s.data).map String.mk
  if parts.getLast? = some "" then parts.dropLast else parts

/-- The string-value rewriting step of `Model.update`:

    if isinstance(value, str) and '\n' in value:
        value = value.splitlines()
-/
def transformStrValue (s : String) : Value :=
  if pyContainsNL s then .strList (pySplitlines s) else .leaf (.str s)

/-- Extract the string ID from a response leaf (IDs are modelled as strings;
see the module comment). -/
def leafId : Leaf → Except Err String
  | .str s => .ok s
  | _ => .error .typeError

/-- `value[k]` on a JSON sub-object (`KeyError` when absent). -/
def dictItem (d : List (String × Leaf)) (k : String) : Except Err Leaf :=
  match assocFind d k with
  | some v => .ok v
  | Option.none => .error .keyError

/-- The nested-client resolution of `Model.update`:

    value = Client.get(value['clientId'], code=value['code'],
                       name=value['name'], active=value['active'])

Each subscript raises `KeyError` when the key is absent. -/
def resolveClientDict (s : State) (d : List (String × Leaf)) :
    Except Err (Nat × State) :=
  match dictItem d "clientId", dictItem d "code", dictItem d "name",
        dictItem d "active" with
  | .ok cid, .ok code, .ok name, .ok active =>
      match leafId cid with
      | .error e => .error e
      | .ok cidStr =>
          clientGet s cidStr
            [("code", .leaf code), ("name", .leaf name), ("active", .leaf active)]
  | .error e, _, _, _ => .error e
  | _, .error e, _, _ => .error e
  | _, _, .error e, _ => .error e
  | _, _, _, .error e => .error e

/-- The nested-user resolution of `Model.update`:

    del value['links']
    value = User.get(value.pop('userId'), **value)

`del` raises `KeyError` when `links` is absent; the remaining entries are
passed as keyword arguments in dict order. -/
def resolveUserDict (s : State) (d : List (String × Leaf)) :
    Except Err (Nat × State) :=
  if (assocFind d "links").isNone then .error .keyError
  else
    match dictItem (assocErase d "links") "userId" with
    | .error e => .error e
    | .ok uid =>
        match leafId uid with
        | .error e => .error e
        | .ok uidStr =>
            userGet s uidStr
              ((assocErase (assocErase d "links") "userId").map
                (fun p => (p.1, Value.leaf p.2)))

/-- One iteration of the `Model.update` response loop for field `(k, v)`,
acting on the instance at `addr`.  Mirrors, in order: the skip of
`f'{model_name}Id'` and `'links'`; multi-line string splitting; custom-field
renaming; nested client resolution via `Client.get`; nested user resolution
via `User.get`; final `setattr`.  A dict value with both a `clientId` and a
`userId` key only goes through the client resolution, as in the source (the
second `isinstance(value, dict)` test sees the already-resolved value). -/
def applyResponseEntry (mn : String) (cfg : Option Config) (addr : Nat)
    (s : State) (k : String) (v : RespValue) : Except Err State :=
  if k = mn ++ "Id" ∨ k = "links" then .ok s
  else
    match v with
    | .leaf (.str str) =>
        .ok (setObjAttr s addr (transformKey cfg mn k) (transformStrValue str))
    | .leaf l => .ok (setObjAttr s addr (transformKey cfg mn k) (.leaf l))
    | .vdict d =>
        if (assocFind d "clientId").isSome then
          match resolveClientDict s d with
          | .error e => .error e
          | .ok (ca, s') => .ok (setObjAttr s' addr (transformKey cfg mn k) (.ref ca))
        else if (assocFind d "userId").isSome then
          match resolveUserDict s d with
          | .error e => .error e
          | .ok (ua, s') => .ok (setObjAttr s' addr (transformKey cfg mn k) (.ref ua))
        else .ok (setObjAttr s addr (transformKey cfg mn k) (.vdict d))

/-- The full response loop of `Model.update`, left to right. -/
def applyEntries (mn : String) (cfg : Option Config) (addr : Nat)
    (s : State) (entries : List (String × RespValue)) : Except Err State :=
  match entries with
  | [] => .ok s
  | (k, v) :: rest =>
      match applyResponseEntry mn cfg addr s k v with
      | .error e => .error e
      | .ok s' => applyEntries mn cfg addr s' rest

/-- `Model.update`, with the HTTP GET response passed in as data:

    response = ehour.api.API.get_dict(f'{self.model_name}s/{self.id}')
    self.__dict__ = {'id': self.__dict__['id']}
    ... response loop ...
    attr.validate(self)

`attr.validate` is a no-op here (no attribute declares a validator).
The pruning step reads `self.__dict__['id']`. -/
def updateModel (mn : String) (cfg : Option Config) (s : State) (addr : Nat)
    (response : List (String × RespValue)) : Except Err State :=
  match s.objDict addr with
  | Option.none => .error .attributeError
  | some d =>
      match assocFind d "id" with
      | Option.none => .error .keyError
      | some idv =>
          applyEntries mn cfg addr
            { s with store := storeModify s.store addr (fun _ => ⟨[("id", idv)]⟩) }
            response

/-- `User.update`: the base `Model.update` followed by `self._update_name()`. -/
def userUpdate (cfg : Option Config) (s : State) (addr : Nat)
    (response : List (String × RespValue)) : Except Err State :=
  match updateModel "user" cfg s addr response with
  | .error e => .error e
  | .ok s₁ =>
      match s₁.objDict addr with
      | Option.none => .error .attributeError
      | some d =>
          match userUpdateName d with
          | .error e => .error e
          | .ok d' =>
              .ok { s₁ with store := storeModify s₁.store addr (fun _ => ⟨d'⟩) }

/-- `EhourApi.client(client_id)`: raw construction `Client(client_id)` —
not `Client.get` — followed by `client.update()`. -/
def apiClient (cfg : Option Config) (s : State) (id : String)
    (response : List (String × RespValue)) : Except Err (Nat × State) :=
  match clientNew s id with
  | .error e => .error e
  | .ok (a, s₁) =>
      match updateModel "client" cfg s₁ a response with
      | .error e => .error e
      | .ok s₂ => .ok (a, s₂)

/-- `EhourApi.project(project_id)`: raw construction `Project(project_id)`
followed by `project.update()`. -/
def apiProject (cfg : Option Config) (s : State) (id : String)
    (response : List (String × RespValue)) : Except Err (Nat × State) :=
  match projectNew s id with
  | .error e => .error e
  | .ok (a, s₁) =>
      match updateModel "project" cfg s₁ a response with
      | .error e => .error e
      | .ok s₂ => .ok (a, s₂)

/-- `RestError(code, string)` from `ehour/exceptions.py`. -/
structure RestErr where
  code : Nat
  string : String
deriving DecidableEq

/-- An HTTP response as seen by `EhourApi.get`: status code and reason. -/
structure HttpResponse where
  status : Nat
  reason : String
deriving DecidableEq

/-- `requests.Response.ok`: documented as `True` unless `raise_for_status`
would raise, i.e. unless `400 <= status_code < 600`. -/
def responseOk (status : Nat) : Bool := !(400 ≤ status && status < 600)

/-- `EhourApi.get`, with the transport's response passed in as data:

    rsp = self.session.get(url, params=kwargs)
    if not rsp.ok:
        raise RestError(rsp.status_code, rsp.reason)
    return rsp

A single request is issued; there is no retry. -/
def ehourApiGet (rsp : HttpResponse) : Except RestErr HttpResponse :=
  if responseOk rsp.status then .ok rsp else .error ⟨rsp.status, rsp.reason⟩

/-- The `api.config` attribute as seen from the older `ehour/client.py`
revision: `Option.none` models an api object without a `config` attribute
(reading it raises `AttributeError`), `some Option.none` models
`api.config = None` (what `EhourApi.connect` sets when no config file is
given), and `some (some c)` a parsed configuration. -/
def ApiConfigAttr : Type := Option (Option Config)

/-- The field-name rewriting step of `Client.fill` in `ehour/client.py`:

    if k.startswith('customField'):
        try:
            k = self.api.config['Custom Fields'][f'client.{k}']
        except AttributeError:
            pass        # No configuration supplied
        except KeyError:
            pass        # Field name not configured

Note that when `api.config` is `None`, the subscript raises `TypeError`
(`'NoneType' object is not subscriptable`), which neither except clause
catches. -/
def fillTransformKey (apiConfig : ApiConfigAttr) (k : String) :
    Except Err String :=
  if pyStartsWith k "customField" then
    match apiConfig with
    | Option.none => .ok k
    | some Option.none => .error .typeError
    | some (some c) =>
        match configGet c "Custom Fields" ("client." ++ k) with
        | some mapped => .ok mapped
        | Option.none => .ok k
  else .ok k

/-- One iteration of the `Client.fill` loop of `ehour/client.py` on the
instance `__dict__`:

    if k in ('clientId', 'links'): continue
    if k == 'description': v = v.splitlines()
    if k.startswith('customField'): ...rename...
    setattr(self, k, v)

`v.splitlines()` on a non-string raises `AttributeError`. -/
def clientFillEntry (apiConfig : ApiConfigAttr) (d : List (String × Value))
    (k : String) (v : RespValue) : Except Err (List (String × Value)) :=
  if k = "clientId" ∨ k = "links" then .ok d
  else
    match (if k = "description" then
             match v with
             | .leaf (.str s) => Except.ok (Value.strList (pySplitlines s))
             | _ => Except.error Err.attributeError
           else
             match v with
             | .leaf l => Except.ok (Value.leaf l)
             | .vdict dd => Except.ok (Value.vdict dd)) with
    | .error e => .error e
    | .ok vv =>
        match fillTransformKey apiConfig k with
        | .error e => .error e
        | .ok k' => .ok (assocSet d k' vv)

/-- `Client.fill` of `ehour/client.py`, with the GET response passed in as
data.  This older revision has no identity cache and no pruning: it merges
the response into the existing instance `__dict__`. -/
def clientFill (apiConfig : ApiConfigAttr) (d : List (String × Value))
    (response : List (String × RespValue)) : Except Err (List (String × Value)) :=
  match response with
  | [] => .ok d
  | (k, v) :: rest =>
      match clientFillEntry apiConfig d k v with
      | .error e => .error e
      | .ok d' => clientFill apiConfig d' rest

/-- Instance `__dict__` of a freshly constructed `ehour/client.py`
`Client(api, id)`.  The `api` attribute holds the API object; it is
represented by a placeholder value since `fill` receives the transport
response and configuration as parameters in this model. -/
def oldClientDefaultDict (id : String) : List (String × Value) :=
  [("api", .leaf .nil), ("id", .leaf (.str id)), ("name", .leaf .nil),
   ("code", .leaf .nil), ("active", .leaf .nil)]

/-- The operations of the modelled program that create or mutate entity
state: the three `get` classmethods, the three raw constructors, the three
`update` variants, a bare `setattr` (field update), and the two API wrappers
that construct-then-update. -/
inductive Op where
  | clientGetOp (id : String) (kwargs : List (String × Value))
  | projectGetOp (id : String) (kwargs : List (String × Value))
  | userGetOp (id : String) (kwargs : List (String × Value))
  | clientNewOp (id : String)
  | projectNewOp (id : String)
  | userNewOp (id : String)
  | clientUpdateOp (cfg : Option Config) (addr : Nat)
      (resp : List (String × RespValue))
  | projectUpdateOp (cfg : Option Config) (addr : Nat)
      (resp : List (String × RespValue))
  | userUpdateOp (cfg : Option Config) (addr : Nat)
      (resp : List (String × RespValue))
  | setattrOp (addr : Nat) (k : String) (v : Value)
  | apiClientOp (cfg : Option Config) (id : String)
      (resp : List (String × RespValue))
  | apiProjectOp (cfg : Option Config) (id : String)
      (resp : List (String × RespValue))

/-- Run one operation, returning the next state (the returned entity, if
any, is dropped). -/
def runOp (op : Op) (s : State) : Except Err State :=
  match op with
  | .clientGetOp id kw => (clientGet s id kw).map Prod.snd
  | .projectGetOp id kw => (projectGet s id kw).map Prod.snd
  | .userGetOp id kw => (userGet s id kw).map Prod.snd
  | .clientNewOp id => (clientNew s id).map Prod.snd
  | .projectNewOp id => (projectNew s id).map Prod.snd
  | .userNewOp id => (userNew s id).map Prod.snd
  | .clientUpdateOp cfg addr resp => updateModel "client" cfg s addr resp
  | .projectUpdateOp cfg addr resp => updateModel "project" cfg s addr resp
  | .userUpdateOp cfg addr resp => userUpdate cfg s addr resp
  | .setattrOp addr k v => .ok (setObjAttr s addr k v)
  | .apiClientOp cfg id resp => (apiClient cfg s id resp).map Prod.snd
  | .apiProjectOp cfg id resp => (apiProject cfg s id resp).map Prod.snd

/-- One successful program step. -/
def StepRel (s s' : State) : Prop := ∃ op, runOp op s = .ok s'

/-- States reachable from interpreter start by successful steps. -/
def ReachableState (s : State) : Prop :=
  Relation.ReflTransGen StepRel initState s

theorem assocFind_assocSet {K V : Type} [DecidableEq K]
    (l : List (K × V)) (k k' : K) (v : V) :
    assocFind (assocSet l k v) k' = if k = k' then some v else assocFind l k' := by
  induction l with
  | nil => simp [assocSet, assocFind]
  | cons hd tl ih =>
      obtain ⟨k₀, v₀⟩ := hd
      by_cases h₀ : k₀ = k
      · subst h₀
        by_cases h₁ : k₀ = k'
        · subst h₁; simp [assocSet, assocFind]
        · simp [assocSet, assocFind, h₁]
      · by_cases h₁ : k₀ = k'
        · subst h₁
          have h₂ : k ≠ k₀ := fun h => h₀ h.symm
          simp [assocSet, assocFind, h₀, h₂, ih]
        · simp [assocSet, assocFind, h₀, h₁, ih]

theorem assocFind_assocSet_self {K V : Type} [DecidableEq K]
    (l : List (K × V)) (k : K) (v : V) :
    assocFind (assocSet l k v) k = some v := by
  simp [assocFind_assocSet]

theorem assocFind_assocSet_ne {K V : Type} [DecidableEq K]
    (l : List (K × V)) (k k' : K) (v : V) (h : k ≠ k') :
    assocFind (assocSet l k v) k' = assocFind l k' := by
  simp [assocFind_assocSet, h]

theorem setObjAttr_clientCache (s : State) (a : Nat) (k : String) (v : Value) :
    (setObjAttr s a k v).clientCache = s.clientCache := rfl

theorem setObjAttr_projectCache (s : State) (a : Nat) (k : String) (v : Value) :
    (setObjAttr s a k v).projectCache = s.projectCache := rfl

theorem setObjAttr_userCache (s : State) (a : Nat) (k : String) (v : Value) :
    (setObjAttr s a k v).userCache = s.userCache := rfl

theorem setObjAttr_next (s : State) (a : Nat) (k : String) (v : Value) :
    (setObjAttr s a k v).next = s.next := rfl

theorem setAttrs_userCache (kwargs : List (String × Value)) (s : State) (a : Nat) :
    (setAttrs s a kwargs).userCache = s.userCache := by
  induction kwargs generalizing s with
  | nil => rfl
  | cons hd tl ih => simp [setAttrs, ih, setObjAttr_userCache]

theorem setAttrs_clientCache (kwargs : List (String × Value)) (s : State) (a : Nat) :
    (setAttrs s a kwargs).clientCache = s.clientCache := by
  induction kwargs generalizing s with
  | nil => rfl
  | cons hd tl ih => simp [setAttrs, ih, setObjAttr_clientCache]

theorem setAttrs_projectCache (kwargs : List (String × Value)) (s : State) (a : Nat) :
    (setAttrs s a kwargs).projectCache = s.projectCache := by
  induction kwargs generalizing s with
  | nil => rfl
  | cons hd tl ih => simp [setAttrs, ih, setObjAttr_projectCache]

theorem setAttrs_next (kwargs : List (String × Value)) (s : State) (a : Nat) :
    (setAttrs s a kwargs).next = s.next := by
  induction kwargs generalizing s with
  | nil => rfl
  | cons hd tl ih => simp [setAttrs, ih, setObjAttr_next]

theorem clientNew_userCache {s : State} {id : String} {a : Nat} {s' : State}
    (h : clientNew s id = .ok (a, s')) : s'.userCache = s.userCache := by
  unfold clientNew at h
  split at h
  · exact absurd h (by simp)
  · simp at h
    obtain ⟨-, h₂⟩ := h
    subst h₂
    rfl

theorem projectNew_userCache {s : State} {id : String} {a : Nat} {s' : State}
    (h : projectNew s id = .ok (a, s')) : s'.userCache = s.userCache := by
  unfold projectNew at h
  split at h
  · exact absurd h (by simp)
  · simp at h
    obtain ⟨-, h₂⟩ := h
    subst h₂
    rfl

theorem userNew_userCache {s : State} {id : String} {a : Nat} {s' : State}
    (h : userNew s id = .ok (a, s')) : s'.userCache = s.userCache := by
  unfold userNew at h
  split at h
  · exact absurd h (by simp)
  · simp at h
    obtain ⟨-, h₂⟩ := h
    subst h₂
    rfl

theorem clientGet_userCache {s : State} {id : String}
    {kw : List (String × Value)} {a : Nat} {s' : State}
    (h : clientGet s id kw = .ok (a, s')) : s'.userCache = s.userCache := by
  unfold clientGet at h
  split at h
  · simp at h
    obtain ⟨-, h₂⟩ := h
    subst h₂
    simp [setAttrs_userCache]
  · split at h
    · exact absurd h (by simp)
    · rename_i a₁ s₁ heq
      simp at h
      obtain ⟨-, h₂⟩ := h
      subst h₂
      rw [setAttrs_userCache, clientNew_userCache heq]

theorem projectGet_userCache {s : State} {id : String}
    {kw : List (String × Value)} {a : Nat} {s' : State}
    (h : projectGet s id kw = .ok (a, s')) : s'.userCache = s.userCache := by
  unfold projectGet at h
  split at h
  · simp at h
    obtain ⟨-, h₂⟩ := h
    subst h₂
    simp [setAttrs_userCache]
  · split at h
    · exact absurd h (by simp)
    · rename_i a₁ s₁ heq
      simp at h
      obtain ⟨-, h₂⟩ := h
      subst h₂
      rw [setAttrs_userCache, projectNew_userCache heq]

theorem userGet_userCache {s : State} {id : String}
    {kw : List (String × Value)} {a : Nat} {s' : State}
    (h : userGet s id kw = .ok (a, s')) : s'.userCache = s.userCache := by
  unfold userGet at h
  split at h
  · simp at h
    obtain ⟨-, h₂⟩ := h
    subst h₂
    simp [setAttrs_userCache]
  · split at h
    · exact absurd h (by simp)
    · rename_i a₁ s₁ heq
      simp at h
      obtain ⟨-, h₂⟩ := h
      subst h₂
      rw [setAttrs_userCache, userNew_userCache heq]

theorem resolveClientDict_userCache {s : State} {d : List (String × Leaf)}
    {a : Nat} {s' : State} (h : resolveClientDict s d = .ok (a, s')) :
    s'.userCache = s.userCache := by
  unfold resolveClientDict at h
  repeat' split at h
  all_goals try simp at h
  exact clientGet_userCache h

theorem resolveUserDict_userCache {s : State} {d : List (String × Leaf)}
    {a : Nat} {s' : State} (h : resolveUserDict s d = .ok (a, s')) :
    s'.userCache = s.userCache := by
  unfold resolveUserDict at h
  repeat' split at h
  all_goals try simp at h
  exact userGet_userCache h

theorem applyResponseEntry_userCache {mn : String} {cfg : Option Config}
    {addr : Nat} {s : State} {k : String} {v : RespValue} {s' : State}
    (h : applyResponseEntry mn cfg addr s k v = .ok s') :
    s'.userCache = s.userCache := by
  unfold applyResponseEntry at h
  repeat' split at h
  all_goals try simp at h
  all_goals subst h
  all_goals try simp only [setObjAttr_userCache]
  all_goals (rename_i heq
             first
               | exact resolveClientDict_userCache heq
               | exact resolveUserDict_userCache heq)

theorem applyEntries_userCache {mn : String} {cfg : Option Config} {addr : Nat}
    {entries : List (String × RespValue)} {s s' : State}
    (h : applyEntries mn cfg addr s entries = .ok s') :
    s'.userCache = s.userCache := by
  induction entries generalizing s with
  | nil => unfold applyEntries at h; simp at h; rw [h]
  | cons hd tl ih =>
      unfold applyEntries at h
      split at h
      · simp at h
      · rename_i s₁ heq
        rw [ih h, applyResponseEntry_userCache heq]

theorem updateModel_userCache {mn : String} {cfg : Option Config} {s : State}
    {addr : Nat} {resp : List (String × RespValue)} {s' : State}
    (h : updateModel mn cfg s addr resp = .ok s') :
    s'.userCache = s.userCache := by
  unfold updateModel at h
  split at h
  · simp at h
  · split at h
    · simp at h
    · rw [applyEntries_userCache h]

theorem userUpdate_userCache {cfg : Option Config} {s : State} {addr : Nat}
    {resp : List (String × RespValue)} {s' : State}
    (h : userUpdate cfg s addr resp = .ok s') :
    s'.userCache = s.userCache := by
  unfold userUpdate at h
  split at h
  · simp at h
  · rename_i s₁ heq
    split at h
    · simp at h
    · split at h
      · simp at h
      · simp at h
        subst h
        show s₁.userCache = s.userCache
        exact updateModel_userCache heq

theorem apiClient_userCache {cfg : Option Config} {s : State} {id : String}
    {resp : List (String × RespValue)} {a : Nat} {s' : State}
    (h : apiClient cfg s id resp = .ok (a, s')) :
    s'.userCache = s.userCache := by
  unfold apiClient at h
  split at h
  · simp at h
  · rename_i a₁ s₁ heq
    split at h
    · simp at h
    · rename_i s₂ heq₂
      simp at h
      obtain ⟨-, h₂⟩ := h
      subst h₂
      rw [updateModel_userCache heq₂, clientNew_userCache heq]

theorem apiProject_userCache {cfg : Option Config} {s : State} {id : String}
    {resp : List (String × RespValue)} {a : Nat} {s' : State}
    (h : apiProject cfg s id resp = .ok (a, s')) :
    s'.userCache = s.userCache := by
  unfold apiProject at h
  split at h
  · simp at h
  · rename_i a₁ s₁ heq
    split at h
    · simp at h
    · rename_i s₂ heq₂
      simp at h
      obtain ⟨-, h₂⟩ := h
      subst h₂
      rw [updateModel_userCache heq₂, projectNew_userCache heq]

theorem runOp_userCache {op : Op} {s s' : State} (h : runOp op s = .ok s') :
    s'.userCache = s.userCache := by
  cases op with
  | clientGetOp id kw =>
      simp only [runOp] at h
      cases heq : clientGet s id kw with
      | error e => rw [heq] at h; simp [Except.map] at h
      | ok p =>
          obtain ⟨a, s₁⟩ := p
          rw [heq] at h
          simp [Except.map] at h
          subst h
          exact clientGet_userCache heq
  | projectGetOp id kw =>
      simp only [runOp] at h
      cases heq : projectGet s id kw with
      | error e => rw [heq] at h; simp [Except.map] at h
      | ok p =>
          obtain ⟨a, s₁⟩ := p
          rw [heq] at h
          simp [Except.map] at h
          subst h
          exact projectGet_userCache heq
  | userGetOp id kw =>
      simp only [runOp] at h
      cases heq : userGet s id kw with
      | error e => rw [heq] at h; simp [Except.map] at h
      | ok p =>
          obtain ⟨a, s₁⟩ := p
          rw [heq] at h
          simp [Except.map] at h
          subst h
          exact userGet_userCache heq
  | clientNewOp id =>
      simp only [runOp] at h
      cases heq : clientNew s id with
      | error e => rw [heq] at h; simp [Except.map] at h
      | ok p =>
          obtain ⟨a, s₁⟩ := p
          rw [heq] at h
          simp [Except.map] at h
          subst h
          exact clientNew_userCache heq
  | projectNewOp id =>
      simp only [runOp] at h
      cases heq : projectNew s id with
      | error e => rw [heq] at h; simp [Except.map] at h
      | ok p =>
          obtain ⟨a, s₁⟩ := p
          rw [heq] at h
          simp [Except.map] at h
          subst h
          exact projectNew_userCache heq
  | userNewOp id =>
      simp only [runOp] at h
      cases heq : userNew s id with
      | error e => rw [heq] at h; simp [Except.map] at h
      | ok p =>
          obtain ⟨a, s₁⟩ := p
          rw [heq] at h
          simp [Except.map] at h
          subst h
          exact userNew_userCache heq
  | clientUpdateOp cfg addr resp => exact updateModel_userCache h
  | projectUpdateOp cfg addr resp => exact updateModel_userCache h
  | userUpdateOp cfg addr resp => exact userUpdate_userCache h
  | setattrOp addr k v =>
      simp only [runOp] at h
      simp at h
      subst h
      rfl
  | apiClientOp cfg id resp =>
      simp only [runOp] at h
      cases heq : apiClient cfg s id resp with
      | error e => rw [heq] at h; simp [Except.map] at h
      | ok p =>
          obtain ⟨a, s₁⟩ := p
          rw [heq] at h
          simp [Except.map] at h
          subst h
          exact apiClient_userCache heq
  | apiProjectOp cfg id resp =>
      simp only [runOp] at h
      cases heq : apiProject cfg s id resp with
      | error e => rw [heq] at h; simp [Except.map] at h
      | ok p =>
          obtain ⟨a, s₁⟩ := p
          rw [heq] at h
          simp [Except.map] at h
          subst h
          exact apiProject_userCache heq

theorem reachable_userCache_empty {s : State} (h : ReachableState s) :
    s.userCache = [] := by
  induction h with
  | refl => rfl
  | tail _ hstep ih =>
      obtain ⟨op, hop⟩ := hstep
      rw [runOp_userCache hop, ih]

theorem storeModify_cons (b : Nat) (o : Obj) (t : List (Nat × Obj)) (a : Nat)
    (f : Obj → Obj) :
    storeModify ((b, o) :: t) a f =
      (if b = a then (a, f o) else (b, o)) :: storeModify t a f := rfl

theorem assocFind_cons {K V : Type} [DecidableEq K] (k : K) (v : V)
    (t : List (K × V)) (a : K) :
    assocFind ((k, v) :: t) a = if k = a then some v else assocFind t a := rfl

theorem assocFind_storeModify_self (st : List (Nat × Obj)) (a : Nat)
    (f : Obj → Obj) :
    assocFind (storeModify st a f) a = (assocFind st a).map f := by
  induction st with
  | nil => rfl
  | cons p t ih =>
      obtain ⟨b, o⟩ := p
      by_cases hb : b = a
      · rw [storeModify_cons, if_pos hb, assocFind_cons, assocFind_cons]
        simp [hb]
      · rw [storeModify_cons, if_neg hb, assocFind_cons, assocFind_cons]
        simp [hb, ih]

theorem assocFind_storeModify_ne (st : List (Nat × Obj)) (a b : Nat)
    (f : Obj → Obj) (h : b ≠ a) :
    assocFind (storeModify st b f) a = assocFind st a := by
  induction st with
  | nil => rfl
  | cons p t ih =>
      obtain ⟨c, o⟩ := p
      by_cases hc : c = b
      · rw [storeModify_cons, if_pos hc, assocFind_cons, assocFind_cons]
        have hca : c ≠ a := fun hx => h (hc ▸ hx)
        simp [h, hca, ih]
      · rw [storeModify_cons, if_neg hc, assocFind_cons, assocFind_cons]
        by_cases hca : c = a
        · simp [hca]
        · simp [hca, ih]

theorem assocFind_append_left {K V : Type} [DecidableEq K]
    (l₁ l₂ : List (K × V)) (a : K) (x : V) (h : assocFind l₁ a = some x) :
    assocFind (l₁ ++ l₂) a = some x := by
  induction l₁ with
  | nil => simp [assocFind] at h
  | cons p t ih =>
      obtain ⟨b, o⟩ := p
      by_cases hb : b = a
      · subst hb; simp [assocFind] at *; exact h
      · simp [assocFind, hb] at *; exact ih h

theorem assocFind_append_singleton_ne {K V : Type} [DecidableEq K]
    (l : List (K × V)) (a n : K) (o : V) (h : a ≠ n) :
    assocFind (l ++ [(n, o)]) a = assocFind l a := by
  induction l with
  | nil => rw [List.nil_append, assocFind_cons, if_neg (fun hn => h hn.symm)]
  | cons p t ih =>
      obtain ⟨b, v⟩ := p
      by_cases hb : b = a
      · subst hb; simp [assocFind]
      · simp [assocFind, hb] at *; exact ih

theorem assocFind_append_singleton_self {K V : Type} [DecidableEq K]
    (l : List (K × V)) (n : K) (o : V) (h : assocFind l n = Option.none) :
    assocFind (l ++ [(n, o)]) n = some o := by
  induction l with
  | nil => simp [assocFind]
  | cons p t ih =>
      obtain ⟨b, v⟩ := p
      by_cases hb : b = n
      · subst hb; simp [assocFind] at h
      · simp [assocFind, hb] at *; exact ih h

theorem getattr_setObjAttr_self {s : State} {a : Nat} (k : String) (v : Value)
    (h : (s.objDict a).isSome) :
    (setObjAttr s a k v).getattr a k = some v := by
  unfold State.getattr State.objDict at *
  unfold setObjAttr
  simp only [assocFind_storeModify_self]
  cases hf : assocFind s.store a with
  | none => rw [hf] at h; simp at h
  | some o => simp [hf, assocFind_assocSet_self]

theorem getattr_setObjAttr_ne {s : State} {a : Nat} {k k₂ : String} (v : Value)
    (h : k ≠ k₂) :
    (setObjAttr s a k v).getattr a k₂ = s.getattr a k₂ := by
  unfold State.getattr State.objDict setObjAttr
  simp only [assocFind_storeModify_self]
  cases hf : assocFind s.store a with
  | none => simp
  | some o => simp [assocFind_assocSet_ne _ _ _ _ h]

theorem getattr_setObjAttr_other {s : State} {a b : Nat} (k k₂ : String)
    (v : Value) (h : b ≠ a) :
    (setObjAttr s a k v).getattr b k₂ = s.getattr b k₂ := by
  unfold State.getattr State.objDict setObjAttr
  simp only [assocFind_storeModify_ne s.store b a _ (Ne.symm h)]

theorem objDict_setObjAttr_isSome {s : State} {a b : Nat} (k : String)
    (v : Value) (h : (s.objDict b).isSome) :
    ((setObjAttr s a k v).objDict b).isSome := by
  by_cases hb : b = a
  · subst hb
    unfold State.objDict setObjAttr at *
    simp only [assocFind_storeModify_self]
    cases hf : assocFind s.store b with
    | none => rw [hf] at h; simp at h
    | some o => simp
  · unfold State.objDict setObjAttr at *
    simp only [assocFind_storeModify_ne s.store b a _ (Ne.symm hb)]
    exact h

theorem getattr_setObjAttr_isSome {s : State} {a b : Nat} {k k₂ : String}
    (v : Value) (h : (s.getattr b k₂).isSome) :
    ((setObjAttr s a k v).getattr b k₂).isSome := by
  by_cases hb : b = a
  · subst hb
    by_cases hk : k = k₂
    · subst hk
      have hd : (s.objDict b).isSome := by
        unfold State.getattr at h
        cases hf : s.objDict b with
        | none => rw [hf] at h; simp at h
        | some o => simp
      rw [getattr_setObjAttr_self k v hd]; simp
    · rw [getattr_setObjAttr_ne v hk]; exact h
  · rw [getattr_setObjAttr_other k k₂ v hb]; exact h

theorem getattr_setAttrs_other {kwargs : List (String × Value)} {s : State}
    {a b : Nat} (k₂ : String) (h : b ≠ a) :
    (setAttrs s a kwargs).getattr b k₂ = s.getattr b k₂ := by
  induction kwargs generalizing s with
  | nil => rfl
  | cons hd tl ih =>
      obtain ⟨k, v⟩ := hd
      unfold setAttrs
      rw [ih, getattr_setObjAttr_other k k₂ v h]

theorem getattr_setAttrs_isSome {kwargs : List (String × Value)} {s : State}
    {a b : Nat} {k₂ : String} (h : (s.getattr b k₂).isSome) :
    ((setAttrs s a kwargs).getattr b k₂).isSome := by
  induction kwargs generalizing s with
  | nil => exact h
  | cons hd tl ih =>
      obtain ⟨k, v⟩ := hd
      unfold setAttrs
      exact ih (getattr_setObjAttr_isSome v h)

theorem objDict_setAttrs_isSome {kwargs : List (String × Value)} {s : State}
    {a b : Nat} (h : (s.objDict b).isSome) :
    ((setAttrs s a kwargs).objDict b).isSome := by
  induction kwargs generalizing s with
  | nil => exact h
  | cons hd tl ih =>
      obtain ⟨k, v⟩ := hd
      unfold setAttrs
      exact ih (objDict_setObjAttr_isSome k v h)

/-- The state after `Client.get('C1')` (or `Client('C1')`) from interpreter
start: one client cached under "C1" at address 0. -/
def stateWithClientC1 : State :=
  { clientCache := [("C1", 0)], projectCache := [], userCache := [],
    store := [(0, ⟨clientDefaultDict "C1"⟩)], next := 1 }

/-- The state after `Project.get('P1')` from interpreter start. -/
def stateWithProjectP1 : State :=
  { clientCache := [], projectCache := [("P1", 0)], userCache := [],
    store := [(0, ⟨projectDefaultDict "P1"⟩)], next := 1 }

theorem responseOk_false_iff (c : Nat) :
    responseOk c = false ↔ (400 ≤ c ∧ c < 600) := by
  unfold responseOk
  simp

theorem responseOk_true_iff (c : Nat) :
    responseOk c = true ↔ ¬(400 ≤ c ∧ c < 600) := by
  unfold responseOk
  simp
  omega

/-- C8: the claim says every non-2xx response raises `RestError`, but
`EhourApi.get` tests `rsp.ok`, which in `requests` is false only for status
400–599: the non-2xx response 304 "Not Modified" is returned without raising. -/
theorem C8_counterexample :
    ehourApiGet ⟨304, "Not Modified"⟩ = .ok ⟨304, "Not Modified"⟩ ∧
    ¬(200 ≤ 304 ∧ 304 < 300) := by
  exact ⟨by decide, by decide⟩

/-- C8 (amended): `EhourApi.get` raises `RestError` exactly for statuses in
[400, 600), and the error carries exactly the response status code and reason;
any other response (2xx, but also 1xx and 3xx) is returned unchanged.  A
single request is issued, with no retry. -/
theorem C8_amended_rest_error :
    ∀ rsp : HttpResponse,
      (400 ≤ rsp.status ∧ rsp.status < 600 →
        ehourApiGet rsp = .error ⟨rsp.status, rsp.reason⟩) ∧
      (¬(400 ≤ rsp.status ∧ rsp.status < 600) → ehourApiGet rsp = .ok rsp) := by
  intro rsp
  refine ⟨fun h => ?_, fun h => ?_⟩
  · unfold ehourApiGet
    simp [(responseOk_false_iff rsp.status).mpr h]
  · unfold ehourApiGet
    simp [(responseOk_true_iff rsp.status).mpr h]

/-- C8 witness: status 404 with reason "Not Found" yields an error carrying
code 404 and message "Not Found", matching the spec scenario. -/
theorem C8_witness :
    ehourApiGet ⟨404, "Not Found"⟩ = .error ⟨404, "Not Found"⟩ :=
  (C8_amended_rest_error ⟨404, "Not Found"⟩).1 (by decide)

/-- C9: `EhourApi.client` and `EhourApi.project` construct through the raw
constructor, so if the ID is already cached they hit the duplicate-instance
assertion in `Model.__attrs_post_init__` instead of returning the cached
instance. -/
theorem C9_api_single_fetch_raw_ctor :
    ∀ (cfg : Option Config) (s : State) (id : String)
      (resp : List (String × RespValue)) (a : Nat),
      (assocFind s.clientCache id = some a →
        apiClient cfg s id resp = .error .assertionError) ∧
      (assocFind s.projectCache id = some a →
        apiProject cfg s id resp = .error .assertionError) := by
  intro cfg s id resp a
  refine ⟨fun h => ?_, fun h => ?_⟩
  · unfold apiClient clientNew
    simp [h]
  · unfold apiProject projectNew
    simp [h]

/-- C9 witness: after a prior `Client.get('C1')` (resp. `Project.get('P1')`),
`EhourApi.client('C1')` and `EhourApi.project('P1')` raise `AssertionError`. -/
theorem C9_witness :
    apiClient Option.none stateWithClientC1 "C1" [] = .error .assertionError ∧
    apiProject Option.none stateWithProjectP1 "P1" [] = .error .assertionError :=
  ⟨(C9_api_single_fetch_raw_ctor Option.none stateWithClientC1 "C1" [] 0).1
      (by decide),
   (C9_api_single_fetch_raw_ctor Option.none stateWithProjectP1 "P1" [] 0).2
      (by decide)⟩

/-- C2: within the reachable states of the modelled program, constructing a
raw instance for an ID already present in that type's cache fails with
`AssertionError` for `Client` and `Project`; for `User`, the overridden
`__attrs_post_init__` never inserts into `User._cache`, so no reachable state
has any ID in the User cache and the premise is unsatisfiable for that type. -/
theorem C2_raw_ctor_duplicate_asserts :
    ∀ s, ReachableState s →
      ∀ id a,
        (assocFind s.clientCache id = some a →
            clientNew s id = .error .assertionError) ∧
        (assocFind s.projectCache id = some a →
            projectNew s id = .error .assertionError) ∧
        assocFind s.userCache id = Option.none := by
  intro s hre id a
  refine ⟨fun h => ?_, fun h => ?_, ?_⟩
  · unfold clientNew
    simp [h]
  · unfold projectNew
    simp [h]
  · rw [reachable_userCache_empty hre]
    rfl

/-- C2 witness: the single-step reachable state holding client "C1" makes the
raw constructor `Client('C1')` assert. -/
theorem C2_witness :
    clientNew stateWithClientC1 "C1" = .error .assertionError :=
  (C2_raw_ctor_duplicate_asserts stateWithClientC1
      (Relation.ReflTransGen.single ⟨Op.clientGetOp "C1" [], by rfl⟩)
      "C1" 0).1 (by decide)

/-- The spec's example configuration: `[Custom Fields]` maps
`client.customField1` to "PO Number" and nothing else. -/
def cfgPO : Config := [("Custom Fields", [("client.customField1", "PO Number")])]

/-- C6: the failing input for the `Client.fill` revision is `api.config`
being `None` (an API connected without a config file) while the response has
a custom field: subscripting `None` raises `TypeError`, which neither
`except AttributeError` nor `except KeyError` catches (final conjunct).  The
`Model.update` revision handles every absence case silently, and both
revisions apply a configured mapping and fall back to the raw name on a
missing entry or section (remaining conjuncts). -/
theorem C6_custom_field_mapping :
    (∀ mn k, transformKey Option.none mn k = k) ∧
    transformKey (some cfgPO) "client" "customField1" = "PO Number" ∧
    transformKey (some cfgPO) "client" "customField2" = "customField2" ∧
    transformKey (some ([] : Config)) "client" "customField1" =
      "customField1" ∧
    transformKey (some cfgPO) "client" "description" = "description" ∧
    (∀ k, fillTransformKey Option.none k = .ok k) ∧
    fillTransformKey (some (some cfgPO)) "customField1" = .ok "PO Number" ∧
    fillTransformKey (some (some cfgPO)) "customField2" =
      .ok "customField2" ∧
    fillTransformKey (some (some ([] : Config))) "customField1" =
      .ok "customField1" ∧
    clientFill (some Option.none) (oldClientDefaultDict "C6")
        [("customField1", RespValue.leaf (Leaf.str "X"))] =
      .error .typeError := by
  refine ⟨fun mn k => ?_, by decide, by decide, by decide, by decide,
          fun k => ?_, by decide, by decide, by decide, by decide⟩
  · unfold transformKey
    split <;> rfl
  · unfold fillTransformKey
    split <;> rfl

/-- C7: in the `Client.fill` revision, the claim fails — the single-line
string "hello" for `description` is split into the one-element list
["hello"] instead of being stored unchanged. -/
theorem C7_counterexample :
    clientFill Option.none (oldClientDefaultDict "C1")
        [("description", RespValue.leaf (Leaf.str "hello"))] =
      .ok (assocSet (oldClientDefaultDict "C1") "description"
        (Value.strList ["hello"])) ∧
    Value.strList ["hello"] ≠ Value.leaf (Leaf.str "hello") := by
  exact ⟨by decide, by decide⟩

/-- C7 (amended): in `Model.update`, a string value is split into its lines
exactly when it contains a newline (conjuncts 1–2, for every field).  In
`Client.fill`, the `description` field is always split — even a single-line
value becomes a one-element list — and string values of other (non-custom)
fields are never split, even multi-line ones (conjuncts 3–4). -/
theorem C7_amended_splitlines :
    (∀ mn cfg addr s k str, ¬(k = mn ++ "Id" ∨ k = "links") →
        pyContainsNL str = true →
        applyResponseEntry mn cfg addr s k (.leaf (.str str)) =
          .ok (setObjAttr s addr (transformKey cfg mn k)
            (.strList (pySplitlines str)))) ∧
    (∀ mn cfg addr s k str, ¬(k = mn ++ "Id" ∨ k = "links") →
        pyContainsNL str = false →
        applyResponseEntry mn cfg addr s k (.leaf (.str str)) =
          .ok (setObjAttr s addr (transformKey cfg mn k) (.leaf (.str str)))) ∧
    (∀ apiCfg d str,
        clientFillEntry apiCfg d "description" (.leaf (.str str)) =
          .ok (assocSet d "description" (.strList (pySplitlines str)))) ∧
    (∀ apiCfg d k str, ¬(k = "clientId" ∨ k = "links") → k ≠ "description" →
        pyStartsWith k "customField" = false →
        clientFillEntry apiCfg d k (.leaf (.str str)) =
          .ok (assocSet d k (.leaf (.str str)))) := by
  refine ⟨fun mn cfg addr s k str h hNL => ?_,
          fun mn cfg addr s k str h hNL => ?_,
          fun apiCfg d str => ?_,
          fun apiCfg d k str h₁ h₂ h₃ => ?_⟩
  · unfold applyResponseEntry
    rw [if_neg h]
    show Except.ok (setObjAttr s addr (transformKey cfg mn k)
          (transformStrValue str)) = _
    unfold transformStrValue
    rw [hNL]
    rfl
  · unfold applyResponseEntry
    rw [if_neg h]
    show Except.ok (setObjAttr s addr (transformKey cfg mn k)
          (transformStrValue str)) = _
    unfold transformStrValue
    rw [hNL]
    rfl
  · rfl
  · unfold clientFillEntry
    rw [if_neg h₁, if_neg h₂]
    show (match fillTransformKey apiCfg k with
          | Except.error e => Except.error e
          | Except.ok k₁ =>
              Except.ok (assocSet d k₁ (Value.leaf (Leaf.str str)))) =
        Except.ok (assocSet d k (Value.leaf (Leaf.str str)))
    unfold fillTransformKey
    rw [h₃]
    rfl

/-- C7 witness: a multi-line description is split by `Model.update` and a
single-line one is kept, instantiating the amended theorem. -/
theorem C7_witness :
    applyResponseEntry "client" Option.none 0 stateWithClientC1 "description"
        (.leaf (.str "a\nb")) =
      .ok (setObjAttr stateWithClientC1 0
        (transformKey Option.none "client" "description")
        (.strList (pySplitlines "a\nb"))) ∧
    applyResponseEntry "client" Option.none 0 stateWithClientC1 "description"
        (.leaf (.str "hello")) =
      .ok (setObjAttr stateWithClientC1 0
        (transformKey Option.none "client" "description")
        (.leaf (.str "hello"))) :=
  ⟨C7_amended_splitlines.1 "client" Option.none 0 stateWithClientC1
      "description" "a\nb" (by decide) (by decide),
   C7_amended_splitlines.2.1 "client" Option.none 0 stateWithClientC1
      "description" "hello" (by decide) (by decide)⟩

theorem clientNew_miss {s : State} {id : String}
    (h : assocFind s.clientCache id = Option.none) :
    clientNew s id = .ok (s.next,
      { s with clientCache := assocSet s.clientCache id s.next,
               store := s.store ++ [(s.next, ⟨clientDefaultDict id⟩)],
               next := s.next + 1 }) := by
  unfold clientNew
  rw [h]
  rfl

theorem projectNew_miss {s : State} {id : String}
    (h : assocFind s.projectCache id = Option.none) :
    projectNew s id = .ok (s.next,
      { s with projectCache := assocSet s.projectCache id s.next,
               store := s.store ++ [(s.next, ⟨projectDefaultDict id⟩)],
               next := s.next + 1 }) := by
  unfold projectNew
  rw [h]
  rfl

theorem userNew_eq (s : State) (id : String) :
    userNew s id = .ok (s.next,
      { s with store := s.store ++ [(s.next, ⟨userDefaultDict id⟩)],
               next := s.next + 1 }) := by
  rfl

theorem clientGet_cache_hit {s : State} {id : String} {a : Nat}
    (kw : List (String × Value)) (h : assocFind s.clientCache id = some a) :
    clientGet s id kw = .ok (a, setAttrs s a kw) := by
  unfold clientGet
  rw [h]

theorem projectGet_cache_hit {s : State} {id : String} {a : Nat}
    (kw : List (String × Value)) (h : assocFind s.projectCache id = some a) :
    projectGet s id kw = .ok (a, setAttrs s a kw) := by
  unfold projectGet
  rw [h]

theorem clientGet_miss {s : State} {id : String} (kw : List (String × Value))
    (h : assocFind s.clientCache id = Option.none) :
    clientGet s id kw = .ok (s.next,
      setAttrs { s with clientCache := assocSet s.clientCache id s.next,
                        store := s.store ++ [(s.next, ⟨clientDefaultDict id⟩)],
                        next := s.next + 1 } s.next kw) := by
  unfold clientGet
  rw [h, clientNew_miss h]

theorem projectGet_miss {s : State} {id : String} (kw : List (String × Value))
    (h : assocFind s.projectCache id = Option.none) :
    projectGet s id kw = .ok (s.next,
      setAttrs { s with projectCache := assocSet s.projectCache id s.next,
                        store := s.store ++ [(s.next, ⟨projectDefaultDict id⟩)],
                        next := s.next + 1 } s.next kw) := by
  unfold projectGet
  rw [h, projectNew_miss h]

theorem clientGet_cache_post {s : State} {id : String}
    {kw : List (String × Value)} {a : Nat} {s' : State}
    (h : clientGet s id kw = .ok (a, s')) :
    assocFind s'.clientCache id = some a := by
  cases hc : assocFind s.clientCache id with
  | some a₀ =>
      rw [clientGet_cache_hit kw hc] at h
      simp at h
      obtain ⟨h₁, h₂⟩ := h
      subst h₁
      subst h₂
      rw [setAttrs_clientCache, hc]
  | none =>
      rw [clientGet_miss kw hc] at h
      simp at h
      obtain ⟨h₁, h₂⟩ := h
      subst h₁
      subst h₂
      rw [setAttrs_clientCache]
      exact assocFind_assocSet_self _ _ _

theorem projectGet_cache_post {s : State} {id : String}
    {kw : List (String × Value)} {a : Nat} {s' : State}
    (h : projectGet s id kw = .ok (a, s')) :
    assocFind s'.projectCache id = some a := by
  cases hc : assocFind s.projectCache id with
  | some a₀ =>
      rw [projectGet_cache_hit kw hc] at h
      simp at h
      obtain ⟨h₁, h₂⟩ := h
      subst h₁
      subst h₂
      rw [setAttrs_projectCache, hc]
  | none =>
      rw [projectGet_miss kw hc] at h
      simp at h
      obtain ⟨h₁, h₂⟩ := h
      subst h₁
      subst h₂
      rw [setAttrs_projectCache]
      exact assocFind_assocSet_self _ _ _

theorem userGet_fresh {s : State} {id : String} {kw : List (String × Value)}
    {a : Nat} {s' : State} (hcache : s.userCache = [])
    (h : userGet s id kw = .ok (a, s')) :
    a = s.next ∧ s'.next = s.next + 1 ∧ s'.userCache = [] := by
  unfold userGet at h
  rw [hcache, userNew_eq] at h
  simp [assocFind] at h
  obtain ⟨h₁, h₂⟩ := h
  subst h₁
  subst h₂
  refine ⟨rfl, ?_, ?_⟩
  · rw [setAttrs_next]
  · rw [setAttrs_userCache, hcache]

/-- Data of the C1 counterexample: two successive `User.get('U1')` calls from
interpreter start, recording the two returned addresses and the `id`
attribute of each returned instance. -/
def c1TwoUserGets : Option (Nat × Nat × Option Value × Option Value) :=
  match userGet initState "U1" [] with
  | .ok (a₁, s₁) =>
      match userGet s₁ "U1" [] with
      | .ok (a₂, s₂) => some (a₁, a₂, s₂.getattr a₁ "id", s₂.getattr a₂ "id")
      | .error _ => Option.none
  | .error _ => Option.none

/-- C1: the claim fails for `User`: two `User.get('U1')` calls return two
distinct live instances (addresses 0 and 1), both with id "U1" — because
`User.__attrs_post_init__` overrides the base post-init and never inserts
into `User._cache`. -/
theorem C1_counterexample :
    c1TwoUserGets =
      some (0, 1, some (.leaf (.str "U1")), some (.leaf (.str "U1"))) ∧
    (0 : Nat) ≠ 1 := by
  exact ⟨by decide, by decide⟩

/-- C1 (amended): for `Client` and `Project`, `get_or_create` is an identity
cache: a successful get leaves the ID mapped to the returned address
(conjuncts 1 and 3), a get on a mapped ID returns exactly the mapped address,
merely applying the keyword fields with `setattr` (conjuncts 2 and 4), and
plain field updates never touch any cache (conjunct 5) — so two gets with the
same ID return the identical instance regardless of intervening field
updates, and at most one instance per ID is ever cached.  For `User` the
claim fails: the User cache never gains entries, and every `User.get`
allocates a fresh instance at the next free address (conjunct 6). -/
theorem C1_amended_identity_cache :
    (∀ s id kw a s', clientGet s id kw = .ok (a, s') →
        assocFind s'.clientCache id = some a) ∧
    (∀ s id (kw : List (String × Value)) a,
        assocFind s.clientCache id = some a →
        clientGet s id kw = .ok (a, setAttrs s a kw)) ∧
    (∀ s id kw a s', projectGet s id kw = .ok (a, s') →
        assocFind s'.projectCache id = some a) ∧
    (∀ s id (kw : List (String × Value)) a,
        assocFind s.projectCache id = some a →
        projectGet s id kw = .ok (a, setAttrs s a kw)) ∧
    (∀ s a k v, (setObjAttr s a k v).clientCache = s.clientCache ∧
        (setObjAttr s a k v).projectCache = s.projectCache ∧
        (setObjAttr s a k v).userCache = s.userCache) ∧
    (∀ s id kw a s', s.userCache = [] → userGet s id kw = .ok (a, s') →
        a = s.next ∧ s'.next = s.next + 1 ∧ s'.userCache = []) :=
  ⟨fun _ _ _ _ _ h => clientGet_cache_post h,
   fun _ _ kw _ h => clientGet_cache_hit kw h,
   fun _ _ _ _ _ h => projectGet_cache_post h,
   fun _ _ kw _ h => projectGet_cache_hit kw h,
   fun _ _ _ _ => ⟨rfl, rfl, rfl⟩,
   fun _ _ _ _ _ hc h => userGet_fresh hc h⟩

/-- C1 witness: a repeated `Client.get('C1')` returns the cached address 0,
and a `User.get('U1')` from start allocates the fresh address 0 with the next
allocation counter bumped and the User cache still empty. -/
theorem C1_witness :
    clientGet stateWithClientC1 "C1" [("name", Value.leaf (Leaf.str "N"))] =
      .ok (0, setAttrs stateWithClientC1 0
        [("name", Value.leaf (Leaf.str "N"))]) ∧
    (0 = initState.next ∧
      ({ initState with store := [(0, ⟨userDefaultDict "U1"⟩)],
                        next := 1 } : State).next = initState.next + 1 ∧
      ({ initState with store := [(0, ⟨userDefaultDict "U1"⟩)],
                        next := 1 } : State).userCache = []) :=
  ⟨C1_amended_identity_cache.2.1 stateWithClientC1 "C1"
      [("name", Value.leaf (Leaf.str "N"))] 0 (by decide),
   C1_amended_identity_cache.2.2.2.2.2 initState "U1" [] 0
      { initState with store := [(0, ⟨userDefaultDict "U1"⟩)], next := 1 }
      (by rfl) (by decide)⟩

/-- Data of the C3 counterexample: `User.get('U1', code='A')` then
`User.get('U1', name='B')` from interpreter start, recording the two returned
addresses and the `code` and `name` attributes of the second returned
instance. -/
def c3UserMerge : Option (Nat × Nat × Option Value × Option Value) :=
  match userGet initState "U1" [("code", Value.leaf (Leaf.str "A"))] with
  | .ok (a₁, s₁) =>
      match userGet s₁ "U1" [("name", Value.leaf (Leaf.str "B"))] with
      | .ok (a₂, s₂) => some (a₁, a₂, s₂.getattr a₂ "code", s₂.getattr a₂ "name")
      | .error _ => Option.none
  | .error _ => Option.none

/-- C3: the claim fails for `User`: creating user "U1" with `code='A'` and
then calling `User.get('U1', name='B')` does not merge — the second call
returns a distinct fresh instance (address 1, not 0) that has `name` "B" but
no `code` attribute at all, because `User._cache` is never populated. -/
theorem C3_counterexample :
    c3UserMerge = some (0, 1, Option.none, some (Value.leaf (Leaf.str "B"))) ∧
    (0 : Nat) ≠ 1 := by
  exact ⟨by decide, by decide⟩

/-- C3 (amended): for `Client` and `Project`, creating the entity with
`{code: v₁}` and then calling get with `{name: v₂}` yields the same address
and an instance carrying both fields (field-level last-write-wins merge).
The freshness hypothesis on `s.next` says the next free address is not
already allocated, which holds in every reachable state. -/
theorem C3_amended_field_merge :
    (∀ s id v₁ v₂ a₁ s₁ a₂ s₂,
        assocFind s.clientCache id = Option.none →
        assocFind s.store s.next = Option.none →
        clientGet s id [("code", v₁)] = .ok (a₁, s₁) →
        clientGet s₁ id [("name", v₂)] = .ok (a₂, s₂) →
        a₂ = a₁ ∧ s₂.getattr a₁ "code" = some v₁ ∧
          s₂.getattr a₁ "name" = some v₂) ∧
    (∀ s id v₁ v₂ a₁ s₁ a₂ s₂,
        assocFind s.projectCache id = Option.none →
        assocFind s.store s.next = Option.none →
        projectGet s id [("code", v₁)] = .ok (a₁, s₁) →
        projectGet s₁ id [("name", v₂)] = .ok (a₂, s₂) →
        a₂ = a₁ ∧ s₂.getattr a₁ "code" = some v₁ ∧
          s₂.getattr a₁ "name" = some v₂) := by
  constructor
  · intro s id v₁ v₂ a₁ s₁ a₂ s₂ hmiss hfresh h₁ h₂
    rw [clientGet_miss _ hmiss] at h₁
    simp at h₁
    obtain ⟨ha₁, hs₁⟩ := h₁
    subst ha₁
    subst hs₁
    have hdict : (({ s with
        clientCache := assocSet s.clientCache id s.next,
        store := s.store ++ [(s.next, ⟨clientDefaultDict id⟩)],
        next := s.next + 1 } : State).objDict s.next).isSome := by
      unfold State.objDict
      rw [show ({ s with
          clientCache := assocSet s.clientCache id s.next,
          store := s.store ++ [(s.next, ⟨clientDefaultDict id⟩)],
          next := s.next + 1 } : State).store =
        s.store ++ [(s.next, ⟨clientDefaultDict id⟩)] from rfl]
      rw [assocFind_append_singleton_self _ _ _ hfresh]
      rfl
    have hhit : assocFind (setAttrs { s with
        clientCache := assocSet s.clientCache id s.next,
        store := s.store ++ [(s.next, ⟨clientDefaultDict id⟩)],
        next := s.next + 1 } s.next
          [("code", v₁)]).clientCache id = some s.next := by
      rw [setAttrs_clientCache]
      exact assocFind_assocSet_self _ _ _
    rw [clientGet_cache_hit _ hhit] at h₂
    simp at h₂
    obtain ⟨ha₂, hs₂⟩ := h₂
    subst ha₂
    subst hs₂
    refine ⟨rfl, ?_, ?_⟩
    · show ((setObjAttr (setObjAttr _ s.next "code" v₁) s.next "name"
          v₂).getattr s.next "code") = some v₁
      rw [getattr_setObjAttr_ne v₂ (by decide)]
      exact getattr_setObjAttr_self "code" v₁ hdict
    · show ((setObjAttr (setObjAttr _ s.next "code" v₁) s.next "name"
          v₂).getattr s.next "name") = some v₂
      exact getattr_setObjAttr_self "name" v₂
        (objDict_setObjAttr_isSome "code" v₁ hdict)
  · intro s id v₁ v₂ a₁ s₁ a₂ s₂ hmiss hfresh h₁ h₂
    rw [projectGet_miss _ hmiss] at h₁
    simp at h₁
    obtain ⟨ha₁, hs₁⟩ := h₁
    subst ha₁
    subst hs₁
    have hdict : (({ s with
        projectCache := assocSet s.projectCache id s.next,
        store := s.store ++ [(s.next, ⟨projectDefaultDict id⟩)],
        next := s.next + 1 } : State).objDict s.next).isSome := by
      unfold State.objDict
      rw [show ({ s with
          projectCache := assocSet s.projectCache id s.next,
          store := s.store ++ [(s.next, ⟨projectDefaultDict id⟩)],
          next := s.next + 1 } : State).store =
        s.store ++ [(s.next, ⟨projectDefaultDict id⟩)] from rfl]
      rw [assocFind_append_singleton_self _ _ _ hfresh]
      rfl
    have hhit : assocFind (setAttrs { s with
        projectCache := assocSet s.projectCache id s.next,
        store := s.store ++ [(s.next, ⟨projectDefaultDict id⟩)],
        next := s.next + 1 } s.next
          [("code", v₁)]).projectCache id = some s.next := by
      rw [setAttrs_projectCache]
      exact assocFind_assocSet_self _ _ _
    rw [projectGet_cache_hit _ hhit] at h₂
    simp at h₂
    obtain ⟨ha₂, hs₂⟩ := h₂
    subst ha₂
    subst hs₂
    refine ⟨rfl, ?_, ?_⟩
    · show ((setObjAttr (setObjAttr _ s.next "code" v₁) s.next "name"
          v₂).getattr s.next "code") = some v₁
      rw [getattr_setObjAttr_ne v₂ (by decide)]
      exact getattr_setObjAttr_self "code" v₁ hdict
    · show ((setObjAttr (setObjAttr _ s.next "code" v₁) s.next "name"
          v₂).getattr s.next "name") = some v₂
      exact getattr_setObjAttr_self "name" v₂
        (objDict_setObjAttr_isSome "code" v₁ hdict)

/-- The state after `Client.get('C1', code='A')` from interpreter start. -/
def c3StateOne : State :=
  { clientCache := [("C1", 0)], projectCache := [], userCache := [],
    store := [(0, ⟨[("id", .leaf (.str "C1")), ("code", .leaf (.str "A")),
      ("name", .leaf .nil), ("active", .leaf .nil), ("description", .leaf .nil),
      ("customField1", .leaf .nil), ("customField2", .leaf .nil),
      ("customField3", .leaf .nil)]⟩)], next := 1 }

/-- The state after a further `Client.get('C1', name='B')`. -/
def c3StateTwo : State :=
  { clientCache := [("C1", 0)], projectCache := [], userCache := [],
    store := [(0, ⟨[("id", .leaf (.str "C1")), ("code", .leaf (.str "A")),
      ("name", .leaf (.str "B")), ("active", .leaf .nil),
      ("description", .leaf .nil), ("customField1", .leaf .nil),
      ("customField2", .leaf .nil), ("customField3", .leaf .nil)]⟩)],
    next := 1 }

/-- C3 witness: the concrete client scenario of the claim — create "C1" with
code "A", then get with name "B": one instance (address 0) with both fields. -/
theorem C3_witness :
    (0 : Nat) = 0 ∧
    c3StateTwo.getattr 0 "code" = some (Value.leaf (Leaf.str "A")) ∧
    c3StateTwo.getattr 0 "name" = some (Value.leaf (Leaf.str "B")) :=
  C3_amended_field_merge.1 initState "C1" (Value.leaf (Leaf.str "A"))
    (Value.leaf (Leaf.str "B")) 0 c3StateOne 0 c3StateTwo
    (by decide) (by decide) (by decide) (by decide)

/-- Whether a response value is a dict carrying a `clientId` key (i.e. one
that `Model.update` resolves through the Client cache). -/
def RespValue.hasClientId : RespValue → Bool
  | .vdict d => (assocFind d "clientId").isSome
  | .leaf _ => false

/-- Whether a response value is a scalar. -/
def RespValue.isLeaf : RespValue → Bool
  | .leaf _ => true
  | .vdict _ => false

/-- The attribute names under which `Model.update` stores the response's
non-skipped fields (after custom-field renaming). -/
def transformedKeys (mn : String) (cfg : Option Config) :
    List (String × RespValue) → List String
  | [] => []
  | (k, _) :: rest =>
      if k = mn ++ "Id" ∨ k = "links" then transformedKeys mn cfg rest
      else transformKey cfg mn k :: transformedKeys mn cfg rest

theorem getattr_append_ne {s s' : State} {n : Nat} {o : Obj}
    (hst : s'.store = s.store ++ [(n, o)]) {b : Nat} (hb : b ≠ n)
    (k₂ : String) : s'.getattr b k₂ = s.getattr b k₂ := by
  unfold State.getattr State.objDict
  rw [hst, assocFind_append_singleton_ne _ _ _ _ hb]

theorem getattr_append_isSome {s : State} {b : Nat} {k₂ : String}
    (hg : (s.getattr b k₂).isSome) (s' : State) (l₂ : List (Nat × Obj))
    (hst : s'.store = s.store ++ l₂) : (s'.getattr b k₂).isSome := by
  unfold State.getattr State.objDict at hg ⊢
  rw [hst]
  cases hf : assocFind s.store b with
  | none => rw [hf] at hg; simp at hg
  | some o =>
      rw [assocFind_append_left _ _ _ _ hf]
      rw [hf] at hg
      exact hg

theorem objDict_append_isSome {s : State} {b : Nat}
    (hg : (s.objDict b).isSome) (s' : State) (l₂ : List (Nat × Obj))
    (hst : s'.store = s.store ++ l₂) : (s'.objDict b).isSome := by
  unfold State.objDict at hg ⊢
  rw [hst]
  cases hf : assocFind s.store b with
  | none => rw [hf] at hg; simp at hg
  | some o =>
      rw [assocFind_append_left _ _ _ _ hf]
      simp

theorem userGet_footprint {s s' : State} {id : String}
    {kw : List (String × Value)} {a' : Nat} (hcache : s.userCache = [])
    (h : userGet s id kw = .ok (a', s')) :
    s.next ≤ s'.next ∧ s'.userCache = [] ∧
      ∀ b k₂, b ≠ s.next → s'.getattr b k₂ = s.getattr b k₂ := by
  unfold userGet at h
  rw [hcache, userNew_eq] at h
  simp [assocFind] at h
  obtain ⟨-, h₂⟩ := h
  subst h₂
  refine ⟨?_, ?_, ?_⟩
  · rw [setAttrs_next]
    exact Nat.le_succ _
  · rw [setAttrs_userCache]
    exact hcache
  · intro b k₂ hb
    rw [getattr_setAttrs_other k₂ hb]
    exact getattr_append_ne rfl hb k₂

theorem clientGet_getattr_isSome {s s' : State} {id : String}
    {kw : List (String × Value)} {a' : Nat}
    (h : clientGet s id kw = .ok (a', s')) {b : Nat} {k₂ : String}
    (hg : (s.getattr b k₂).isSome) : (s'.getattr b k₂).isSome := by
  cases hc : assocFind s.clientCache id with
  | some a₀ =>
      rw [clientGet_cache_hit kw hc] at h
      simp at h
      obtain ⟨-, h₂⟩ := h
      subst h₂
      exact getattr_setAttrs_isSome hg
  | none =>
      rw [clientGet_miss kw hc] at h
      simp at h
      obtain ⟨-, h₂⟩ := h
      subst h₂
      exact getattr_setAttrs_isSome (getattr_append_isSome hg _ _ rfl)

theorem userGet_getattr_isSome {s s' : State} {id : String}
    {kw : List (String × Value)} {a' : Nat}
    (h : userGet s id kw = .ok (a', s')) {b : Nat} {k₂ : String}
    (hg : (s.getattr b k₂).isSome) : (s'.getattr b k₂).isSome := by
  unfold userGet at h
  cases hc : assocFind s.userCache id with
  | some a₀ =>
      rw [hc] at h
      simp at h
      obtain ⟨-, h₂⟩ := h
      subst h₂
      exact getattr_setAttrs_isSome hg
  | none =>
      rw [hc, userNew_eq] at h
      simp at h
      obtain ⟨-, h₂⟩ := h
      subst h₂
      exact getattr_setAttrs_isSome (getattr_append_isSome hg _ _ rfl)

theorem clientGet_objDict_isSome {s s' : State} {id : String}
    {kw : List (String × Value)} {a' : Nat}
    (h : clientGet s id kw = .ok (a', s')) {b : Nat}
    (hg : (s.objDict b).isSome) : (s'.objDict b).isSome := by
  cases hc : assocFind s.clientCache id with
  | some a₀ =>
      rw [clientGet_cache_hit kw hc] at h
      simp at h
      obtain ⟨-, h₂⟩ := h
      subst h₂
      exact objDict_setAttrs_isSome hg
  | none =>
      rw [clientGet_miss kw hc] at h
      simp at h
      obtain ⟨-, h₂⟩ := h
      subst h₂
      exact objDict_setAttrs_isSome (objDict_append_isSome hg _ _ rfl)

theorem userGet_objDict_isSome {s s' : State} {id : String}
    {kw : List (String × Value)} {a' : Nat}
    (h : userGet s id kw = .ok (a', s')) {b : Nat}
    (hg : (s.objDict b).isSome) : (s'.objDict b).isSome := by
  unfold userGet at h
  cases hc : assocFind s.userCache id with
  | some a₀ =>
      rw [hc] at h
      simp at h
      obtain ⟨-, h₂⟩ := h
      subst h₂
      exact objDict_setAttrs_isSome hg
  | none =>
      rw [hc, userNew_eq] at h
      simp at h
      obtain ⟨-, h₂⟩ := h
      subst h₂
      exact objDict_setAttrs_isSome (objDict_append_isSome hg _ _ rfl)

theorem resolveUserDict_footprint {s s' : State} {d : List (String × Leaf)}
    {a' : Nat} (hcache : s.userCache = [])
    (h : resolveUserDict s d = .ok (a', s')) :
    s.next ≤ s'.next ∧ s'.userCache = [] ∧
      ∀ b k₂, b ≠ s.next → s'.getattr b k₂ = s.getattr b k₂ := by
  unfold resolveUserDict at h
  repeat' split at h
  all_goals try simp at h
  exact userGet_footprint hcache h

theorem resolveClientDict_getattr_isSome {s s' : State}
    {d : List (String × Leaf)} {a' : Nat}
    (h : resolveClientDict s d = .ok (a', s')) {b : Nat} {k₂ : String}
    (hg : (s.getattr b k₂).isSome) : (s'.getattr b k₂).isSome := by
  unfold resolveClientDict at h
  repeat' split at h
  all_goals try simp at h
  exact clientGet_getattr_isSome h hg

theorem resolveUserDict_getattr_isSome {s s' : State}
    {d : List (String × Leaf)} {a' : Nat}
    (h : resolveUserDict s d = .ok (a', s')) {b : Nat} {k₂ : String}
    (hg : (s.getattr b k₂).isSome) : (s'.getattr b k₂).isSome := by
  unfold resolveUserDict at h
  repeat' split at h
  all_goals try simp at h
  exact userGet_getattr_isSome h hg

theorem resolveClientDict_objDict_isSome {s s' : State}
    {d : List (String × Leaf)} {a' : Nat}
    (h : resolveClientDict s d = .ok (a', s')) {b : Nat}
    (hg : (s.objDict b).isSome) : (s'.objDict b).isSome := by
  unfold resolveClientDict at h
  repeat' split at h
  all_goals try simp at h
  exact clientGet_objDict_isSome h hg

theorem resolveUserDict_objDict_isSome {s s' : State}
    {d : List (String × Leaf)} {a' : Nat}
    (h : resolveUserDict s d = .ok (a', s')) {b : Nat}
    (hg : (s.objDict b).isSome) : (s'.objDict b).isSome := by
  unfold resolveUserDict at h
  repeat' split at h
  all_goals try simp at h
  exact userGet_objDict_isSome h hg

theorem applyResponseEntry_skip {mn : String} {cfg : Option Config}
    {addr : Nat} {s : State} {k : String} {v : RespValue}
    (h : k = mn ++ "Id" ∨ k = "links") :
    applyResponseEntry mn cfg addr s k v = .ok s := by
  unfold applyResponseEntry
  rw [if_pos h]

theorem applyResponseEntry_footprint {mn : String} {cfg : Option Config}
    {addr : Nat} {s : State} {k : String} {v : RespValue} {s' : State}
    (h : applyResponseEntry mn cfg addr s k v = .ok s')
    (hskip : ¬(k = mn ++ "Id" ∨ k = "links"))
    (haddr : addr < s.next) (hcache : s.userCache = [])
    (hv : v.hasClientId = false) :
    s.next ≤ s'.next ∧ s'.userCache = [] ∧
      ∀ k₂, k₂ ≠ transformKey cfg mn k →
        s'.getattr addr k₂ = s.getattr addr k₂ := by
  unfold applyResponseEntry at h
  rw [if_neg hskip] at h
  cases v with
  | leaf l =>
      cases l <;>
        (simp at h
         subst h
         exact ⟨by rw [setObjAttr_next],
                by rw [setObjAttr_userCache]; exact hcache,
                fun k₂ hk₂ => getattr_setObjAttr_ne _ (Ne.symm hk₂)⟩)
  | vdict d =>
      simp [RespValue.hasClientId] at hv
      have h₁ : (if (assocFind d "userId").isSome = true then
            match resolveUserDict s d with
            | Except.error e => Except.error e
            | Except.ok (ua, s₂) =>
                Except.ok (setObjAttr s₂ addr (transformKey cfg mn k)
                  (Value.ref ua))
          else Except.ok (setObjAttr s addr (transformKey cfg mn k)
            (Value.vdict d))) = Except.ok s' := by
        rw [← h]
        show _ = (if (assocFind d "clientId").isSome = true then _ else _)
        rw [hv]
        rfl
      cases huid : (assocFind d "userId").isSome with
      | false =>
          rw [huid] at h₁
          simp at h₁
          subst h₁
          exact ⟨by rw [setObjAttr_next],
                 by rw [setObjAttr_userCache]; exact hcache,
                 fun k₂ hk₂ => getattr_setObjAttr_ne _ (Ne.symm hk₂)⟩
      | true =>
          rw [huid] at h₁
          simp at h₁
          cases hres : resolveUserDict s d with
          | error e => rw [hres] at h₁; simp at h₁
          | ok p =>
              obtain ⟨ua, s₂⟩ := p
              rw [hres] at h₁
              simp at h₁
              subst h₁
              obtain ⟨hle, huc, hpres⟩ := resolveUserDict_footprint hcache hres
              refine ⟨by rw [setObjAttr_next]; exact hle,
                      by rw [setObjAttr_userCache]; exact huc,
                      fun k₂ hk₂ => ?_⟩
              rw [getattr_setObjAttr_ne _ (Ne.symm hk₂)]
              exact hpres addr k₂ (Nat.ne_of_lt haddr)

theorem applyEntries_footprint {mn : String} {cfg : Option Config}
    {addr : Nat} {entries : List (String × RespValue)} {s s' : State}
    (h : applyEntries mn cfg addr s entries = .ok s')
    (haddr : addr < s.next) (hcache : s.userCache = [])
    (hv : ∀ p ∈ entries, RespValue.hasClientId p.2 = false) :
    s.next ≤ s'.next ∧ s'.userCache = [] ∧
      ∀ k₂, k₂ ∉ transformedKeys mn cfg entries →
        s'.getattr addr k₂ = s.getattr addr k₂ := by
  induction entries generalizing s with
  | nil =>
      unfold applyEntries at h
      simp at h
      subst h
      exact ⟨Nat.le_refl _, hcache, fun _ _ => rfl⟩
  | cons hd tl ih =>
      obtain ⟨k, v⟩ := hd
      unfold applyEntries at h
      by_cases hsk : k = mn ++ "Id" ∨ k = "links"
      · rw [applyResponseEntry_skip hsk] at h
        have h' : applyEntries mn cfg addr s tl = .ok s' := h
        obtain ⟨hle, huc, hpres⟩ :=
          ih h' haddr hcache (fun p hp => hv p (List.mem_cons_of_mem _ hp))
        refine ⟨hle, huc, fun k₂ hk₂ => ?_⟩
        apply hpres
        unfold transformedKeys at hk₂
        rw [if_pos hsk] at hk₂
        exact hk₂
      · cases hstep : applyResponseEntry mn cfg addr s k v with
        | error e => rw [hstep] at h; simp at h
        | ok s₁ =>
            rw [hstep] at h
            have h' : applyEntries mn cfg addr s₁ tl = .ok s' := h
            obtain ⟨hle₁, huc₁, hpres₁⟩ :=
              applyResponseEntry_footprint hstep hsk haddr hcache
                (hv (k, v) (List.mem_cons_self _ _))
            obtain ⟨hle₂, huc₂, hpres₂⟩ :=
              ih h' (lt_of_lt_of_le haddr hle₁) huc₁
                (fun p hp => hv p (List.mem_cons_of_mem _ hp))
            refine ⟨le_trans hle₁ hle₂, huc₂, fun k₂ hk₂ => ?_⟩
            unfold transformedKeys at hk₂
            rw [if_neg hsk] at hk₂
            simp at hk₂
            rw [hpres₂ k₂ hk₂.2, hpres₁ k₂ hk₂.1]

/-- The pruning step `self.__dict__ = {'id': self.__dict__['id']}` of
`Model.update`, as a state transformer. -/
def pruneState (s : State) (addr : Nat) (idv : Value) : State :=
  { s with store := storeModify s.store addr (fun _ => ⟨[("id", idv)]⟩) }

theorem updateModel_eq_prune {mn : String} {cfg : Option Config} {s : State}
    {addr : Nat} {resp : List (String × RespValue)}
    {d : List (String × Value)} {idv : Value}
    (ho : s.objDict addr = some d) (hid : assocFind d "id" = some idv) :
    updateModel mn cfg s addr resp =
      applyEntries mn cfg addr (pruneState s addr idv) resp := by
  unfold updateModel
  rw [ho]
  show (match assocFind d "id" with
        | Option.none => Except.error Err.keyError
        | some idv => applyEntries mn cfg addr (pruneState s addr idv) resp) =
      applyEntries mn cfg addr (pruneState s addr idv) resp
  rw [hid]

theorem getattr_prune {s : State} {addr : Nat} {d : List (String × Value)}
    (idv : Value) (ho : s.objDict addr = some d) (k₂ : String) :
    (pruneState s addr idv).getattr addr k₂ = assocFind [("id", idv)] k₂ := by
  show ((assocFind (storeModify s.store addr (fun _ => ⟨[("id", idv)]⟩))
      addr).map Obj.dict).bind (fun d₁ => assocFind d₁ k₂) =
      assocFind [("id", idv)] k₂
  rw [assocFind_storeModify_self]
  cases hf : assocFind s.store addr with
  | none =>
      unfold State.objDict at ho
      rw [hf] at ho
      simp at ho
  | some o => simp

/-- C4: the claim fails on the identifying ID: the skip list contains only
`'{model}Id'` and `'links'`, so a response field literally named `'id'` is
assigned with `setattr` and replaces the entity's id — here client "C1"
ends up with id "EVIL" after `update()`. -/
theorem C4_counterexample :
    (updateModel "client" Option.none stateWithClientC1 0
        [("id", RespValue.leaf (Leaf.str "EVIL"))]).toOption.map
      (fun s => s.getattr 0 "id") =
      some (some (Value.leaf (Leaf.str "EVIL"))) ∧
    Value.leaf (Leaf.str "EVIL") ≠ Value.leaf (Leaf.str "C1") := by
  exact ⟨by decide, by decide⟩

/-- C4 (amended): `Model.update` prunes the instance to its `id` and stores
exactly the transformed response fields: every attribute other than `id` that
is not among the stored (transformed) response keys is absent afterwards, and
the `id` attribute is unchanged provided no response field is stored under
the literal name `'id'`.  Hypotheses: the address is a live allocation, the
User cache is empty (true in every reachable state), and no response value is
a nested client object (whose cache resolution could alias the updated
instance). -/
theorem C4_amended_update_replaces :
    ∀ mn cfg s addr resp s',
      updateModel mn cfg s addr resp = .ok s' →
      addr < s.next → s.userCache = [] →
      (∀ p ∈ resp, RespValue.hasClientId p.2 = false) →
      (∀ k, k ≠ "id" → k ∉ transformedKeys mn cfg resp →
          s'.getattr addr k = Option.none) ∧
      ("id" ∉ transformedKeys mn cfg resp →
          s'.getattr addr "id" = s.getattr addr "id") := by
  intro mn cfg s addr resp s' h haddr hcache hv
  unfold updateModel at h
  split at h
  · simp at h
  · rename_i d ho
    split at h
    · simp at h
    · rename_i idv hid
      have h' : applyEntries mn cfg addr (pruneState s addr idv) resp =
          .ok s' := h
      obtain ⟨hle, huc, hpres⟩ := applyEntries_footprint h' haddr hcache hv
      constructor
      · intro k hk hkt
        rw [hpres k hkt, getattr_prune idv ho k]
        rw [assocFind_cons, if_neg (fun he => hk he.symm)]
        rfl
      · intro hkt
        rw [hpres "id" hkt, getattr_prune idv ho "id"]
        rw [assocFind_cons, if_pos rfl]
        unfold State.getattr
        rw [ho]
        exact hid.symm

/-- The state of client "C1" after `update()` with response
`{"name": "Acme"}`. -/
def c4StateAfter : State :=
  { clientCache := [("C1", 0)], projectCache := [], userCache := [],
    store := [(0, ⟨[("id", .leaf (.str "C1")),
      ("name", .leaf (.str "Acme"))]⟩)], next := 1 }

/-- C4 witness: after updating client "C1" with `{"name": "Acme"}`, the
stale `description` attribute is gone and the id is unchanged. -/
theorem C4_witness :
    c4StateAfter.getattr 0 "description" = Option.none ∧
    c4StateAfter.getattr 0 "id" = stateWithClientC1.getattr 0 "id" :=
  ⟨(C4_amended_update_replaces "client" Option.none stateWithClientC1 0
      [("name", RespValue.leaf (Leaf.str "Acme"))] c4StateAfter
      (by decide) (by decide) (by rfl) (by decide)).1
    "description" (by decide) (by decide),
   (C4_amended_update_replaces "client" Option.none stateWithClientC1 0
      [("name", RespValue.leaf (Leaf.str "Acme"))] c4StateAfter
      (by decide) (by decide) (by rfl) (by decide)).2 (by decide)⟩

theorem transformKey_none (mn k : String) :
    transformKey Option.none mn k = k := by
  unfold transformKey
  split <;> rfl

theorem transformedKeys_none_not_mem {mn : String}
    {resp : List (String × RespValue)} {k : String}
    (hk : k ∉ resp.map Prod.fst) :
    k ∉ transformedKeys mn Option.none resp := by
  induction resp with
  | nil => simp [transformedKeys]
  | cons hd tl ih =>
      obtain ⟨k₀, v₀⟩ := hd
      rw [List.map_cons] at hk
      have hk₁ : k ≠ k₀ := fun he => hk (he ▸ List.mem_cons_self _ _)
      have hk₂ : k ∉ tl.map Prod.fst := fun hm => hk (List.mem_cons_of_mem _ hm)
      unfold transformedKeys
      by_cases hsk : k₀ = mn ++ "Id" ∨ k₀ = "links"
      · rw [if_pos hsk]
        exact ih hk₂
      · rw [if_neg hsk]
        intro hmem
        rcases List.mem_cons.mp hmem with h₁ | h₂
        · rw [transformKey_none] at h₁
          exact hk₁ h₁
        · exact ih hk₂ h₂

theorem transformedKeys_none_mem {mn : String}
    {resp : List (String × RespValue)} {k : String}
    (h : k ∈ transformedKeys mn Option.none resp) :
    ∃ v, (k, v) ∈ resp ∧ ¬(k = mn ++ "Id" ∨ k = "links") := by
  induction resp with
  | nil => simp [transformedKeys] at h
  | cons hd tl ih =>
      obtain ⟨k₀, v₀⟩ := hd
      unfold transformedKeys at h
      by_cases hsk : k₀ = mn ++ "Id" ∨ k₀ = "links"
      · rw [if_pos hsk] at h
        obtain ⟨v, hv, hn⟩ := ih h
        exact ⟨v, List.mem_cons_of_mem _ hv, hn⟩
      · rw [if_neg hsk] at h
        rcases List.mem_cons.mp h with h₁ | h₂
        · rw [transformKey_none] at h₁
          subst h₁
          exact ⟨v₀, List.mem_cons_self _ _, hsk⟩
        · obtain ⟨v, hv, hn⟩ := ih h₂
          exact ⟨v, List.mem_cons_of_mem _ hv, hn⟩

theorem applyResponseEntry_getattr_isSome {mn : String} {cfg : Option Config}
    {addr : Nat} {s : State} {k : String} {v : RespValue} {s' : State}
    (h : applyResponseEntry mn cfg addr s k v = .ok s') {b : Nat} {k₂ : String}
    (hg : (s.getattr b k₂).isSome) : (s'.getattr b k₂).isSome := by
  unfold applyResponseEntry at h
  repeat' split at h
  all_goals try simp at h
  all_goals subst h
  all_goals first
    | exact hg
    | exact getattr_setObjAttr_isSome _ hg
    | (rename_i heq
       first
         | exact getattr_setObjAttr_isSome _
             (resolveClientDict_getattr_isSome heq hg)
         | exact getattr_setObjAttr_isSome _
             (resolveUserDict_getattr_isSome heq hg))

theorem applyResponseEntry_objDict_isSome {mn : String} {cfg : Option Config}
    {addr : Nat} {s : State} {k : String} {v : RespValue} {s' : State}
    (h : applyResponseEntry mn cfg addr s k v = .ok s') {b : Nat}
    (hg : (s.objDict b).isSome) : (s'.objDict b).isSome := by
  unfold applyResponseEntry at h
  repeat' split at h
  all_goals try simp at h
  all_goals subst h
  all_goals first
    | exact hg
    | exact objDict_setObjAttr_isSome _ _ hg
    | (rename_i heq
       first
         | exact objDict_setObjAttr_isSome _ _
             (resolveClientDict_objDict_isSome heq hg)
         | exact objDict_setObjAttr_isSome _ _
             (resolveUserDict_objDict_isSome heq hg))

theorem applyEntries_getattr_isSome {mn : String} {cfg : Option Config}
    {addr : Nat} {entries : List (String × RespValue)} {s s' : State}
    (h : applyEntries mn cfg addr s entries = .ok s') {b : Nat} {k₂ : String}
    (hg : (s.getattr b k₂).isSome) : (s'.getattr b k₂).isSome := by
  induction entries generalizing s with
  | nil => unfold applyEntries at h; simp at h; subst h; exact hg
  | cons hd tl ih =>
      obtain ⟨k, v⟩ := hd
      unfold applyEntries at h
      cases hstep : applyResponseEntry mn cfg addr s k v with
      | error e => rw [hstep] at h; simp at h
      | ok s₁ =>
          rw [hstep] at h
          exact ih h (applyResponseEntry_getattr_isSome hstep hg)

theorem applyResponseEntry_establish {mn : String} {cfg : Option Config}
    {addr : Nat} {s : State} {k : String} {v : RespValue} {s' : State}
    (h : applyResponseEntry mn cfg addr s k v = .ok s')
    (hskip : ¬(k = mn ++ "Id" ∨ k = "links"))
    (hd : (s.objDict addr).isSome) :
    (s'.getattr addr (transformKey cfg mn k)).isSome := by
  unfold applyResponseEntry at h
  rw [if_neg hskip] at h
  cases v with
  | leaf l =>
      cases l <;>
        (simp at h
         subst h
         rw [getattr_setObjAttr_self _ _ hd]
         rfl)
  | vdict d =>
      have h₁ : (if (assocFind d "clientId").isSome = true then
            match resolveClientDict s d with
            | Except.error e => Except.error e
            | Except.ok (ca, s₂) =>
                Except.ok (setObjAttr s₂ addr (transformKey cfg mn k)
                  (Value.ref ca))
          else if (assocFind d "userId").isSome = true then
            match resolveUserDict s d with
            | Except.error e => Except.error e
            | Except.ok (ua, s₂) =>
                Except.ok (setObjAttr s₂ addr (transformKey cfg mn k)
                  (Value.ref ua))
          else Except.ok (setObjAttr s addr (transformKey cfg mn k)
            (Value.vdict d))) = Except.ok s' := h
      by_cases hcid : (assocFind d "clientId").isSome = true
      · rw [hcid] at h₁
        simp at h₁
        cases hres : resolveClientDict s d with
        | error e => rw [hres] at h₁; simp at h₁
        | ok p =>
            obtain ⟨ca, s₂⟩ := p
            rw [hres] at h₁
            simp at h₁
            subst h₁
            rw [getattr_setObjAttr_self _ _
              (resolveClientDict_objDict_isSome hres hd)]
            rfl
      · have hcid' : (assocFind d "clientId").isSome = false := by
          simpa using hcid
        rw [hcid'] at h₁
        simp at h₁
        by_cases huid : (assocFind d "userId").isSome = true
        · rw [huid] at h₁
          simp at h₁
          cases hres : resolveUserDict s d with
          | error e => rw [hres] at h₁; simp at h₁
          | ok p =>
              obtain ⟨ua, s₂⟩ := p
              rw [hres] at h₁
              simp at h₁
              subst h₁
              rw [getattr_setObjAttr_self _ _
                (resolveUserDict_objDict_isSome hres hd)]
              rfl
        · have huid' : (assocFind d "userId").isSome = false := by
            simpa using huid
          rw [huid'] at h₁
          simp at h₁
          subst h₁
          rw [getattr_setObjAttr_self _ _ hd]
          rfl

theorem applyEntries_presence {mn : String} {cfg : Option Config}
    {addr : Nat} {entries : List (String × RespValue)} {s s' : State}
    (h : applyEntries mn cfg addr s entries = .ok s')
    (hd : (s.objDict addr).isSome) :
    ∀ k v, (k, v) ∈ entries → ¬(k = mn ++ "Id" ∨ k = "links") →
      (s'.getattr addr (transformKey cfg mn k)).isSome := by
  induction entries generalizing s with
  | nil => intro k v hmem; simp at hmem
  | cons hd₀ tl ih =>
      obtain ⟨k₀, v₀⟩ := hd₀
      unfold applyEntries at h
      cases hstep : applyResponseEntry mn cfg addr s k₀ v₀ with
      | error e => rw [hstep] at h; simp at h
      | ok s₁ =>
          rw [hstep] at h
          intro k v hmem hnsk
          rcases List.mem_cons.mp hmem with h₁ | h₂
          · obtain ⟨hk, hv⟩ := Prod.mk.injEq .. ▸ h₁
            subst hk
            exact applyEntries_getattr_isSome h
              (applyResponseEntry_establish hstep hnsk hd)
          · exact ih h (applyResponseEntry_objDict_isSome hstep hd) k v h₂ hnsk

theorem objDict_prune {s : State} {addr : Nat} {d : List (String × Value)}
    (idv : Value) (ho : s.objDict addr = some d) :
    (pruneState s addr idv).objDict addr = some [("id", idv)] := by
  show (assocFind (storeModify s.store addr (fun _ => ⟨[("id", idv)]⟩))
      addr).map Obj.dict = some [("id", idv)]
  rw [assocFind_storeModify_self]
  cases hf : assocFind s.store addr with
  | none =>
      unfold State.objDict at ho
      rw [hf] at ho
      simp at ho
  | some o => simp

/-- C10: after `Model.update` (the update of `Client` and `Project`), every
attribute other than `id` whose name does not occur in the server response is
removed from the instance entirely — reading it yields an attribute lookup
failure (`Option.none`), not a `None` default — while every non-skipped
response field and the `id` remain readable.  Stated for an absent
custom-field configuration; the renaming of stored names under a
configuration is covered separately.  Hypotheses as in the update-replace
theorem: live address, empty User cache, no nested client objects. -/
theorem C10_absent_fields_raise :
    ∀ mn s addr resp s',
      updateModel mn Option.none s addr resp = .ok s' →
      addr < s.next → s.userCache = [] →
      (∀ p ∈ resp, RespValue.hasClientId p.2 = false) →
      (∀ k, k ≠ "id" → k ∉ resp.map Prod.fst →
          s'.getattr addr k = Option.none) ∧
      (∀ k v, (k, v) ∈ resp → ¬(k = mn ++ "Id" ∨ k = "links") →
          (s'.getattr addr k).isSome) ∧
      (s'.getattr addr "id").isSome := by
  intro mn s addr resp s' h haddr hcache hv
  unfold updateModel at h
  split at h
  · simp at h
  · rename_i d ho
    split at h
    · simp at h
    · rename_i idv hid
      have h' : applyEntries mn Option.none addr (pruneState s addr idv)
          resp = .ok s' := h
      have hd₁ : ((pruneState s addr idv).objDict addr).isSome := by
        rw [objDict_prune idv ho]
        rfl
      obtain ⟨hle, huc, hpres⟩ := applyEntries_footprint h' haddr hcache hv
      refine ⟨?_, ?_, ?_⟩
      · intro k hk hknot
        rw [hpres k (transformedKeys_none_not_mem hknot),
            getattr_prune idv ho k]
        rw [assocFind_cons, if_neg (fun he => hk he.symm)]
        rfl
      · intro k v hmem hnsk
        have hp := applyEntries_presence h' hd₁ k v hmem hnsk
        rw [transformKey_none] at hp
        exact hp
      · by_cases hmem : "id" ∈ transformedKeys mn Option.none resp
        · obtain ⟨v, hvm, hnsk⟩ := transformedKeys_none_mem hmem
          have hp := applyEntries_presence h' hd₁ "id" v hvm hnsk
          rw [transformKey_none] at hp
          exact hp
        · rw [hpres "id" hmem, getattr_prune idv ho "id"]
          rw [assocFind_cons, if_pos rfl]
          rfl

/-- C10 witness: updating client "C1" with `{"name": "Acme"}` leaves
`customField1` (declared with a `None` default, absent from the response)
unreadable, while `name` and `id` are readable. -/
theorem C10_witness :
    c4StateAfter.getattr 0 "customField1" = Option.none ∧
    (c4StateAfter.getattr 0 "name").isSome ∧
    (c4StateAfter.getattr 0 "id").isSome :=
  ⟨(C10_absent_fields_raise "client" stateWithClientC1 0
      [("name", RespValue.leaf (Leaf.str "Acme"))] c4StateAfter
      (by decide) (by decide) (by rfl) (by decide)).1 "customField1"
      (by decide) (by decide),
   (C10_absent_fields_raise "client" stateWithClientC1 0
      [("name", RespValue.leaf (Leaf.str "Acme"))] c4StateAfter
      (by decide) (by decide) (by rfl) (by decide)).2.1 "name"
      (RespValue.leaf (Leaf.str "Acme")) (by decide) (by decide),
   (C10_absent_fields_raise "client" stateWithClientC1 0
      [("name", RespValue.leaf (Leaf.str "Acme"))] c4StateAfter
      (by decide) (by decide) (by rfl) (by decide)).2.2⟩

/-- The stored value of a scalar response field in `Model.update`: strings
with a newline are split, everything else is stored as-is. -/
def leafToValue : Leaf → Value
  | .str s => transformStrValue s
  | .nil => .leaf .nil
  | .bool b => .leaf (.bool b)
  | .int n => .leaf (.int n)

/-- The effect of one scalar (non-dict) response entry of `Model.update` on
the instance `__dict__` alone. -/
def pureApplyEntry (mn : String) (cfg : Option Config)
    (d : List (String × Value)) (k : String) (v : RespValue) :
    List (String × Value) :=
  match v with
  | .leaf l =>
      if k = mn ++ "Id" ∨ k = "links" then d
      else assocSet d (transformKey cfg mn k) (leafToValue l)
  | .vdict _ => d

/-- The effect of a scalar-only response on the instance `__dict__`. -/
def pureApply (mn : String) (cfg : Option Config) :
    List (String × RespValue) → List (String × Value) → List (String × Value)
  | [], d => d
  | (k, v) :: rest, d => pureApply mn cfg rest (pureApplyEntry mn cfg d k v)

/-- Replace the object at `addr` by a function of itself. -/
def modifyObj (s : State) (addr : Nat) (f : Obj → Obj) : State :=
  { s with store := storeModify s.store addr f }

theorem pureApplyEntry_leaf (mn : String) (cfg : Option Config)
    (d : List (String × Value)) (k : String) (l : Leaf) :
    pureApplyEntry mn cfg d k (.leaf l) =
      if k = mn ++ "Id" ∨ k = "links" then d
      else assocSet d (transformKey cfg mn k) (leafToValue l) := rfl

theorem applyResponseEntry_leaf (mn : String) (cfg : Option Config)
    (addr : Nat) (s : State) (k : String) (l : Leaf) :
    applyResponseEntry mn cfg addr s k (.leaf l) =
      if k = mn ++ "Id" ∨ k = "links" then .ok s
      else .ok (setObjAttr s addr (transformKey cfg mn k) (leafToValue l)) := by
  cases l <;> rfl

theorem storeModify_comp (st : List (Nat × Obj)) (a : Nat) (f g : Obj → Obj) :
    storeModify (storeModify st a f) a g =
      storeModify st a (fun o => g (f o)) := by
  induction st with
  | nil => rfl
  | cons p t ih =>
      obtain ⟨b, o⟩ := p
      by_cases hb : b = a
      · rw [storeModify_cons, if_pos hb, storeModify_cons, if_pos rfl,
            storeModify_cons, if_pos hb, ih]
      · rw [storeModify_cons, if_neg hb, storeModify_cons, if_neg hb,
            storeModify_cons, if_neg hb, ih]

theorem storeModify_id (st : List (Nat × Obj)) (a : Nat) :
    storeModify st a (fun o => o) = st := by
  induction st with
  | nil => rfl
  | cons p t ih =>
      obtain ⟨b, o⟩ := p
      by_cases hb : b = a
      · subst hb
        rw [storeModify_cons, if_pos rfl, ih]
      · rw [storeModify_cons, if_neg hb, ih]

theorem modifyObj_comp (s : State) (addr : Nat) (f g : Obj → Obj) :
    modifyObj (modifyObj s addr f) addr g =
      modifyObj s addr (fun o => g (f o)) := by
  show { s with store := storeModify (storeModify s.store addr f) addr g } = modifyObj s addr (fun o => g (f o))
  rw [storeModify_comp]
  rfl

theorem pruneState_eq_modifyObj (s : State) (addr : Nat) (idv : Value) :
    pruneState s addr idv = modifyObj s addr (fun _ => ⟨[("id", idv)]⟩) := rfl

theorem applyEntries_pure {mn : String} {cfg : Option Config} {addr : Nat}
    (entries : List (String × RespValue)) (s : State)
    (hleaf : ∀ p ∈ entries, RespValue.isLeaf p.2 = true) :
    applyEntries mn cfg addr s entries =
      .ok (modifyObj s addr (fun o => ⟨pureApply mn cfg entries o.dict⟩)) := by
  induction entries generalizing s with
  | nil =>
      show Except.ok s = Except.ok (modifyObj s addr (fun o => o))
      show Except.ok s = Except.ok { s with store := storeModify s.store addr (fun o => o) }
      rw [storeModify_id]
  | cons hd tl ih =>
      obtain ⟨k, v⟩ := hd
      have hl := hleaf (k, v) (List.mem_cons_self _ _)
      cases v with
      | vdict dd => simp [RespValue.isLeaf] at hl
      | leaf l =>
          unfold applyEntries
          rw [applyResponseEntry_leaf]
          by_cases hsk : k = mn ++ "Id" ∨ k = "links"
          · rw [if_pos hsk]
            show applyEntries mn cfg addr s tl = _
            rw [ih _ (fun p hp => hleaf p (List.mem_cons_of_mem _ hp))]
            have hfe : (fun o : Obj => (⟨pureApply mn cfg tl o.dict⟩ : Obj)) =
                (fun o => ⟨pureApply mn cfg ((k, RespValue.leaf l) :: tl) o.dict⟩) := by
              funext o
              show (⟨pureApply mn cfg tl o.dict⟩ : Obj) =
                  ⟨pureApply mn cfg tl (pureApplyEntry mn cfg o.dict k (.leaf l))⟩
              rw [pureApplyEntry_leaf, if_pos hsk]
            rw [hfe]
          · rw [if_neg hsk]
            show applyEntries mn cfg addr
              (setObjAttr s addr (transformKey cfg mn k) (leafToValue l)) tl = _
            rw [ih _ (fun p hp => hleaf p (List.mem_cons_of_mem _ hp))]
            show Except.ok (modifyObj (modifyObj s addr (fun o => ⟨assocSet o.dict (transformKey cfg mn k) (leafToValue l)⟩)) addr (fun o => (⟨pureApply mn cfg tl o.dict⟩ : Obj))) = _
            rw [modifyObj_comp]
            have hfe : (fun o : Obj => (⟨pureApply mn cfg tl (assocSet o.dict (transformKey cfg mn k) (leafToValue l))⟩ : Obj)) =
                (fun o => ⟨pureApply mn cfg ((k, RespValue.leaf l) :: tl) o.dict⟩) := by
              funext o
              show (⟨pureApply mn cfg tl (assocSet o.dict (transformKey cfg mn k) (leafToValue l))⟩ : Obj) =
                  ⟨pureApply mn cfg tl (pureApplyEntry mn cfg o.dict k (.leaf l))⟩
              rw [pureApplyEntry_leaf, if_neg hsk]
            show Except.ok (modifyObj s addr (fun o => (⟨pureApply mn cfg tl (assocSet o.dict (transformKey cfg mn k) (leafToValue l))⟩ : Obj))) = _
            rw [hfe]

theorem updateModel_pure {mn : String} {cfg : Option Config} {s : State}
    {addr : Nat} {resp : List (String × RespValue)}
    {d : List (String × Value)} {idv : Value}
    (hleaf : ∀ p ∈ resp, RespValue.isLeaf p.2 = true)
    (ho : s.objDict addr = some d) (hid : assocFind d "id" = some idv) :
    updateModel mn cfg s addr resp =
      .ok (modifyObj s addr (fun _ => ⟨pureApply mn cfg resp [("id", idv)]⟩)) := by
  rw [updateModel_eq_prune ho hid]
  rw [applyEntries_pure resp (pruneState s addr idv) hleaf]
  rw [pruneState_eq_modifyObj]
  rw [modifyObj_comp]

theorem pureApply_not_mem {mn : String} {cfg : Option Config}
    {resp : List (String × RespValue)} {k : String}
    (hk : k ∉ transformedKeys mn cfg resp) (d₀ : List (String × Value)) :
    assocFind (pureApply mn cfg resp d₀) k = assocFind d₀ k := by
  induction resp generalizing d₀ with
  | nil => rfl
  | cons hd tl ih =>
      obtain ⟨k₀, v₀⟩ := hd
      have htl : k ∉ transformedKeys mn cfg tl := by
        unfold transformedKeys at hk
        by_cases hsk : k₀ = mn ++ "Id" ∨ k₀ = "links"
        · rw [if_pos hsk] at hk
          exact hk
        · rw [if_neg hsk] at hk
          exact fun hm => hk (List.mem_cons_of_mem _ hm)
      cases v₀ with
      | vdict dd =>
          show assocFind (pureApply mn cfg tl d₀) k = assocFind d₀ k
          exact ih htl d₀
      | leaf l =>
          show assocFind (pureApply mn cfg tl
            (pureApplyEntry mn cfg d₀ k₀ (.leaf l))) k = assocFind d₀ k
          rw [pureApplyEntry_leaf]
          by_cases hsk : k₀ = mn ++ "Id" ∨ k₀ = "links"
          · rw [if_pos hsk]
            exact ih htl d₀
          · rw [if_neg hsk]
            rw [ih htl _]
            apply assocFind_assocSet_ne
            intro he
            apply hk
            unfold transformedKeys
            rw [if_neg hsk]
            exact he ▸ List.mem_cons_self _ _

theorem userUpdateName_preserves {d d' : List (String × Value)}
    (h : userUpdateName d = .ok d') (k : String) (hk : k ≠ "name") :
    assocFind d' k = assocFind d k := by
  unfold userUpdateName at h
  repeat' split at h
  all_goals try simp at h
  all_goals subst h
  all_goals try rfl
  all_goals (repeat rw [assocFind_assocSet_ne _ _ _ _ (fun he => hk he.symm)])

theorem objDict_storeModify_eq {s : State} {addr : Nat}
    {d : List (String × Value)} (f : Obj → Obj)
    (ho : s.objDict addr = some d) (s' : State)
    (hst : s'.store = storeModify s.store addr f) :
    s'.objDict addr = some (f ⟨d⟩).dict := by
  unfold State.objDict at ho ⊢
  rw [hst, assocFind_storeModify_self]
  cases hf : assocFind s.store addr with
  | none => rw [hf] at ho; simp at ho
  | some o =>
      rw [hf] at ho
      simp at ho
      subst ho
      rfl

theorem userUpdate_of_parts {cfg : Option Config} {s : State} {addr : Nat}
    {resp : List (String × RespValue)} {s₁ : State}
    {d₁ d₂ : List (String × Value)}
    (hb : updateModel "user" cfg s addr resp = .ok s₁)
    (ho : s₁.objDict addr = some d₁)
    (hn : userUpdateName d₁ = .ok d₂) :
    userUpdate cfg s addr resp = .ok (modifyObj s₁ addr (fun _ => ⟨d₂⟩)) := by
  unfold userUpdate
  rw [hb]
  show (match s₁.objDict addr with
        | Option.none => Except.error Err.attributeError
        | some d => match userUpdateName d with
            | Except.error e => Except.error e
            | Except.ok d' => Except.ok (modifyObj s₁ addr (fun _ => ⟨d'⟩))) = _
  rw [ho]
  show (match userUpdateName d₁ with
        | Except.error e => Except.error e
        | Except.ok d' => Except.ok (modifyObj s₁ addr (fun _ => ⟨d'⟩))) = _
  rw [hn]

/-- Data of the C5 counterexample: project "P1" updated twice with a response
whose `projectManager` is a nested user object, recording the stored
`projectManager` value after each update. -/
def c5Resp : List (String × RespValue) :=
  [("projectManager", RespValue.vdict
    [("userId", Leaf.str "U1"), ("links", Leaf.str "L"),
     ("name", Leaf.str "X")])]

/-- The two stored `projectManager` references. -/
def c5Twice : Option (Option Value × Option Value) :=
  match updateModel "project" Option.none stateWithProjectP1 0 c5Resp with
  | .ok s₁ =>
      match updateModel "project" Option.none s₁ 0 c5Resp with
      | .ok s₂ =>
          some (s₁.getattr 0 "projectManager", s₂.getattr 0 "projectManager")
      | .error _ => Option.none
  | .error _ => Option.none

/-- C5: the claim fails for responses with a nested user object: each
`update()` resolves it through `User.get`, which never caches, so each run
allocates a fresh `User` instance — after the first update `projectManager`
holds the instance at address 1, after the second the one at address 2.
The field sets differ (by reference) although the response was identical. -/
theorem C5_counterexample :
    c5Twice = some (some (Value.ref 1), some (Value.ref 2)) ∧
    Value.ref 1 ≠ Value.ref 2 := by
  exact ⟨by decide, by decide⟩

/-- C5 (amended): for responses whose values are all scalars (no nested
client/user objects) and which store nothing under the literal name `'id'`,
`update()` is idempotent in the strongest sense: running it a second time
against the same response reproduces exactly the same state.  This holds for
the base `Model.update` (`Client`, `Project`) and for `User.update` with its
`_update_name` post-processing. -/
theorem C5_amended_update_idempotent :
    (∀ mn cfg s addr resp s',
        (∀ p ∈ resp, RespValue.isLeaf p.2 = true) →
        "id" ∉ transformedKeys mn cfg resp →
        updateModel mn cfg s addr resp = .ok s' →
        updateModel mn cfg s' addr resp = .ok s') ∧
    (∀ cfg s addr resp s',
        (∀ p ∈ resp, RespValue.isLeaf p.2 = true) →
        "id" ∉ transformedKeys "user" cfg resp →
        userUpdate cfg s addr resp = .ok s' →
        userUpdate cfg s' addr resp = .ok s') := by
  constructor
  · intro mn cfg s addr resp s' hleaf hidk h
    have hdup := h
    unfold updateModel at hdup
    split at hdup
    · simp at hdup
    · rename_i d ho
      split at hdup
      · simp at hdup
      · rename_i idv hid
        have hpure := @updateModel_pure mn cfg s addr resp d idv hleaf ho hid
        rw [hpure] at h
        simp at h
        subst h
        have ho' : (modifyObj s addr
            (fun _ => (⟨pureApply mn cfg resp [("id", idv)]⟩ : Obj))).objDict
              addr = some (pureApply mn cfg resp [("id", idv)]) :=
          objDict_storeModify_eq _ ho _ rfl
        have hid' : assocFind (pureApply mn cfg resp [("id", idv)]) "id" =
            some idv := by
          rw [pureApply_not_mem hidk]
          rfl
        have h₂ := @updateModel_pure mn cfg
          (modifyObj s addr (fun _ => ⟨pureApply mn cfg resp [("id", idv)]⟩))
          addr resp (pureApply mn cfg resp [("id", idv)]) idv hleaf ho' hid'
        rw [h₂, modifyObj_comp]
  · intro cfg s addr resp s' hleaf hidk h
    have hdup := h
    unfold userUpdate at hdup
    split at hdup
    · simp at hdup
    · rename_i s₁ hbase
      split at hdup
      · simp at hdup
      · rename_i d₁ ho₁
        split at hdup
        · simp at hdup
        · rename_i d₂ hname
          simp at hdup
          have hbdup := hbase
          unfold updateModel at hbdup
          split at hbdup
          · simp at hbdup
          · rename_i d ho
            split at hbdup
            · simp at hbdup
            · rename_i idv hid
              have hpure := @updateModel_pure "user" cfg s addr resp d idv
                hleaf ho hid
              rw [hpure] at hbase
              simp at hbase
              subst hbase
              have hd₁ : d₁ = pureApply "user" cfg resp [("id", idv)] := by
                have hcalc := objDict_storeModify_eq
                  (fun _ => (⟨pureApply "user" cfg resp [("id", idv)]⟩ : Obj))
                  ho (modifyObj s addr
                    (fun _ => ⟨pureApply "user" cfg resp [("id", idv)]⟩)) rfl
                rw [ho₁] at hcalc
                exact Option.some.inj hcalc
              subst hd₁
              rw [← hdup]
              show userUpdate cfg (modifyObj (modifyObj s addr
                  (fun _ => ⟨pureApply "user" cfg resp [("id", idv)]⟩)) addr
                  (fun _ => ⟨d₂⟩)) addr resp =
                Except.ok (modifyObj (modifyObj s addr
                  (fun _ => ⟨pureApply "user" cfg resp [("id", idv)]⟩)) addr
                  (fun _ => ⟨d₂⟩))
              rw [modifyObj_comp]
              show userUpdate cfg (modifyObj s addr (fun _ => (⟨d₂⟩ : Obj)))
                  addr resp =
                Except.ok (modifyObj s addr (fun _ => (⟨d₂⟩ : Obj)))
              have ho₂ : (modifyObj s addr
                  (fun _ => (⟨d₂⟩ : Obj))).objDict addr = some d₂ :=
                objDict_storeModify_eq _ ho _ rfl
              have hid₂ : assocFind d₂ "id" = some idv := by
                rw [userUpdateName_preserves hname "id" (by decide),
                    pureApply_not_mem hidk]
                rfl
              have hb₂ := @updateModel_pure "user" cfg
                (modifyObj s addr (fun _ => ⟨d₂⟩)) addr resp d₂ idv hleaf
                ho₂ hid₂
              have hoM : (modifyObj (modifyObj s addr (fun _ => (⟨d₂⟩ : Obj)))
                  addr (fun _ =>
                    (⟨pureApply "user" cfg resp [("id", idv)]⟩ : Obj))).objDict
                  addr = some (pureApply "user" cfg resp [("id", idv)]) :=
                objDict_storeModify_eq _ ho₂ _ rfl
              have happ := userUpdate_of_parts hb₂ hoM hname
              rw [happ, modifyObj_comp, modifyObj_comp]

/-- A lone user instance at address 0, not cached (as `User.get` leaves it). -/
def c5UserStart : State :=
  { clientCache := [], projectCache := [], userCache := [],
    store := [(0, ⟨userDefaultDict "U1"⟩)], next := 1 }

/-- A scalar-only user response. -/
def c5UserResp : List (String × RespValue) :=
  [("firstName", RespValue.leaf (Leaf.str "Jo")),
   ("lastName", RespValue.leaf (Leaf.str "Do"))]

/-- `c5UserStart` after `User.update` with `c5UserResp` (including the
derived display name). -/
def c5UserAfter : State :=
  { clientCache := [], projectCache := [], userCache := [],
    store := [(0, ⟨[("id", .leaf (.str "U1")),
      ("firstName", .leaf (.str "Jo")), ("lastName", .leaf (.str "Do")),
      ("name", .leaf (.str "Jo Do"))]⟩)], next := 1 }

/-- C5 witness: a second `update()` against the same scalar response is a
no-op both for a client and for a user (with its derived name). -/
theorem C5_witness :
    updateModel "client" Option.none c4StateAfter 0
        [("name", RespValue.leaf (Leaf.str "Acme"))] = .ok c4StateAfter ∧
    userUpdate Option.none c5UserAfter 0 c5UserResp = .ok c5UserAfter :=
  ⟨C5_amended_update_idempotent.1 "client" Option.none stateWithClientC1 0
      [("name", RespValue.leaf (Leaf.str "Acme"))] c4StateAfter
      (by decide) (by decide) (by decide),
   C5_amended_update_idempotent.2 Option.none c5UserStart 0 c5UserResp
      c5UserAfter (by decide) (by decide) (by decide)⟩
